import Mathlib

/-!
Verification of the control-automation pipeline (backend agents: extractor,
selector, controller, grader, reporter, orchestrator) against its
natural-language specification.

Python strings are modelled as lists of Unicode code points (`PyStr`);
machine integers are `Int`/`Nat`; external collaborators (LLM calls, the
embedding service, the vector store, the regex engine, the file system) are
modelled as explicit outcome parameters, so that every exception path of the
source is a constructor of an outcome type.
-/

namespace ControlAuto

/-- Python strings modelled as lists of Unicode code points. -/
abbrev PyStr := List Nat

/-- Code points of a Lean string literal; used to embed Python string literals. -/
def str2cp (s : String) : PyStr := s.data.map Char.toNat

/-- Python `str.lower` restricted to ASCII: maps code points 65-90 to 97-122.
All strings the pipeline compares case-insensitively (category names) are ASCII. -/
def lowChar (n : Nat) : Nat := if 65 ≤ n ∧ n ≤ 90 then n + 32 else n

/-- Python `str.upper` restricted to ASCII: maps code points 97-122 to 65-90. -/
def upChar (n : Nat) : Nat := if 97 ≤ n ∧ n ≤ 122 then n - 32 else n

/-- Python `s.lower()` on the code-point model. -/
def pyLower (s : PyStr) : PyStr := s.map lowChar

/-- Python `s.upper()` on the code-point model. -/
def pyUpper (s : PyStr) : PyStr := s.map upChar

/-- Case-insensitive equality of two strings (the spec's notion of
case-insensitive matching), via lower-case normalization. -/
def ciEq (a b : PyStr) : Prop := pyLower a = pyLower b

instance : DecidablePred fun p : PyStr × PyStr => ciEq p.1 p.2 := by
  intro p; unfold ciEq; infer_instance

instance (a b : PyStr) : Decidable (ciEq a b) := by
  unfold ciEq; infer_instance

/-- Python ASCII whitespace test, as used by `str.strip`. -/
def isPySpace (n : Nat) : Bool := n = 32 ∨ n = 9 ∨ n = 10 ∨ n = 13 ∨ n = 11 ∨ n = 12

/-- Python `str.strip()` (ASCII whitespace). -/
def pyStrip (s : PyStr) : PyStr :=
  ((s.dropWhile isPySpace).reverse.dropWhile isPySpace).reverse

/-- ASCII decimal digit test. -/
def isDigitCp (n : Nat) : Bool := 48 ≤ n ∧ n ≤ 57

/-- Accumulating parse of the digit/underscore body of a Python integer
literal: digits accumulate; an underscore is legal only when followed by a
digit (Python allows single underscores between digits). -/
def parseDigitsGo : List Nat → Nat → Option Nat
  | [], acc => some acc
  | c :: rest, acc =>
    if isDigitCp c then parseDigitsGo rest (acc * 10 + (c - 48))
    else if c = 95 then
      match rest with
      | [] => none
      | d :: _ => if isDigitCp d then parseDigitsGo rest acc else none
    else none

/-- Parse a nonempty unsigned decimal body (must start with a digit). -/
def parseUnsigned (l : List Nat) : Option Nat :=
  match l with
  | [] => none
  | d :: _ => if isDigitCp d then parseDigitsGo l 0 else none

/-- Python `int(s)` on an already-stripped string: optional sign followed by
a nonempty digit body (with Python's between-digit underscores). -/
def pyParseInt (s : PyStr) : Option Int :=
  match s with
  | [] => none
  | c :: rest =>
    if c = 43 then (parseUnsigned rest).map (fun n => (n : Int))
    else if c = 45 then (parseUnsigned rest).map (fun n => -(n : Int))
    else (parseUnsigned s).map (fun n => (n : Int))

/-!
### Chunker — `ExtractorAgent._chunk_text` (src/backend/agents/extractor.py)

The while-loop is embedded with explicit fuel so that it stays
kernel-computable; `chunkText` supplies fuel `t.length + 1`, which is proved
sufficient by the lemmas below (each iteration advances `start` by at least
one, or breaks).
-/

/-- The chunking while-loop of `_chunk_text`: from offset `start`, emit
`text[start : start+size]`, advance by `size - overlap`, breaking on a
non-advancing step. -/
def chunkLoopF : Nat → PyStr → Nat → Nat → Nat → List PyStr
  | 0, _, _, _, _ => []
  | fuel + 1, t, size, overlap, start =>
    if start < t.length then
      let c := (t.drop start).take size
      let next := start + size - overlap
      if next ≤ start then [c]
      else c :: chunkLoopF fuel t size overlap next
    else []

/-- The same loop instrumented to record the loop variable `start` of each
emitted chunk (the chunk's start offset). -/
def chunkStartsF : Nat → Nat → Nat → Nat → Nat → List Nat
  | 0, _, _, _, _ => []
  | fuel + 1, len, size, overlap, start =>
    if start < len then
      let next := start + size - overlap
      if next ≤ start then [start]
      else start :: chunkStartsF fuel len size overlap next
    else []

/-- `ExtractorAgent._chunk_text(text, chunk_size, chunk_overlap)`:
`size <= 0` returns the whole text as a single chunk; `overlap >= size`
clamps overlap to `max 0 (size // 2)`; otherwise negative overlap clamps
to 0; empty text yields no chunks; then the while-loop runs. -/
def chunkText (t : PyStr) (size overlap : Int) : List PyStr :=
  if size ≤ 0 then [t]
  else
    let ov : Int := if overlap ≥ size then max 0 (size / 2)
                    else if overlap < 0 then 0 else overlap
    if t = [] then []
    else chunkLoopF (t.length + 1) t size.toNat ov.toNat 0

/-- Start offsets corresponding to `chunkText`'s loop, for positive size. -/
def chunkStarts (t : PyStr) (size overlap : Nat) : List Nat :=
  chunkStartsF (t.length + 1) t.length size overlap 0

/-- Concatenation of chunks with the `O`-character overlap removed from every
chunk after the first (the de-overlapped reconstruction of the spec). -/
def deOverlap (cs : List PyStr) (o : Nat) : PyStr :=
  match cs with
  | [] => []
  | c :: rest => c ++ (rest.map (fun x => x.drop o)).flatten

/-- Last `k` elements of a list (used to phrase the chunk-overlap property). -/
def lastN (l : PyStr) (k : Nat) : PyStr := l.drop (l.length - k)

/-!
### Data model

A raw control result dictionary as produced by `ControllerAgent.run`:
`{'id', 'description', 'instructions', 'result', 'chunk_id', 'distance'}`.
The retrieval distance is only carried through (never computed with), so it
is modelled as an `Int` with the source's `-1.0` sentinel modelled as `-1`.
-/

structure CtrlItem where
  cid : PyStr
  description : PyStr
  instructions : List PyStr
  result : PyStr
  chunk_ref : PyStr
  distance : Int
deriving DecidableEq, Repr

/-- A graded result: a raw result dictionary plus its `score` entry.
`score = none` models a dictionary whose `'score'` key is absent or holds a
non-numeric value (`item.get('score', -1)` then fails the range test either
way); `some s` models an integer score. -/
structure GradedItem where
  base : CtrlItem
  score : Option Int
deriving DecidableEq, Repr

/-- Default result dictionary (used only as a `getD` fallback in statements). -/
def defaultItem : CtrlItem := ⟨[], [], [], [], [], 0⟩

/-!
### Risk grader — `GraderAgent.run` (src/backend/agents/grader.py)

The grading-model call is an external collaborator; its outcome is a
parameter: the call raised, the response had no (truthy) `content`
attribute, or it returned content text.
-/

/-- Outcome of one grading-model call. -/
inductive GradeResp where
  | callFails
  | noContent
  | content (s : PyStr)
deriving DecidableEq

/-- Score assigned to one item by `GraderAgent.run`: parse the stripped
response as an integer; in-range `[1,10]` is kept, out-of-range becomes 10,
parse failure becomes 10, empty/absent content becomes 10, a raised call
becomes 10. (The `-1` initialisation of the source is overwritten on every
branch.) -/
def gradeScore (r : GradeResp) : Int :=
  match r with
  | .callFails => 10
  | .noContent => 10
  | .content s =>
    if s = [] then 10
    else
      match pyParseInt (pyStrip s) with
      | some n => if 1 ≤ n ∧ n ≤ 10 then n else 10
      | none => 10

/-- `GraderAgent.run`: adds a `'score'` key to every result dictionary in
input order; `resp i` is the outcome of the grading call for item `i`. -/
def graderRun (l : List CtrlItem) (resp : Nat → GradeResp) : List GradedItem :=
  l.mapIdx fun i it => ⟨it, some (gradeScore (resp i))⟩

/-!
### Reporter — `ReporterAgent` (src/backend/agents/reporter.py)
-/

/-- Comparison value used by the consolidation loop of `ReporterAgent.run`:
`current_risk_for_comparison` is the score when it is a number in `[1,10]`,
otherwise 10. -/
def vCode (it : GradedItem) : Int :=
  match it.score with
  | some s => if 1 ≤ s ∧ s ≤ 10 then s else 10
  | none => 10

/-- Whether a graded item has a valid score (a number in `[1,10]`). -/
def validScore (it : GradedItem) : Bool :=
  match it.score with
  | some s => 1 ≤ s ∧ s ≤ 10
  | none => false

/-- The worst-item selection loop of `ReporterAgent.run`: tracks
`worst_item` and `max_risk_score_value` (initially `None` and `-1`). -/
def pickLoop : List GradedItem → Option GradedItem → Int → Option GradedItem
  | [], worst, _ => worst
  | it :: rest, worst, maxv =>
    let v := vCode it
    if v ≥ maxv then
      if v > maxv ∨ worst.isNone then pickLoop rest (some it) v
      else pickLoop rest worst maxv
    else
      if worst.isNone then pickLoop rest (some it) maxv
      else pickLoop rest worst maxv

/-- Worst-item selection for one control's group of results. -/
def pickWorst (g : List GradedItem) : Option GradedItem := pickLoop g none (-1)

/-- Special marker ids skipped by the grouping loop of a non-failure report. -/
def isSpecialMarker (cid : PyStr) : Bool :=
  cid = str2cp "EXTRACTOR_ERROR" ∨ cid = str2cp "CATEGORY_FAILURE" ∨
  cid = str2cp "NO_CONTENT" ∨ (str2cp "SKIP_").isPrefixOf cid

/-- One step of the grouping loop: insert an item into the group of its
control id, creating the group at the end on first sight (Python dicts
preserve insertion order). -/
def addToGroups : List (PyStr × List GradedItem) → GradedItem → List (PyStr × List GradedItem)
  | [], it => [(it.base.cid, [it])]
  | (k, items) :: rest, it =>
    if k = it.base.cid then (k, items ++ [it]) :: rest
    else (k, items) :: addToGroups rest it

/-- Group a list of graded results by control id, in first-seen order. -/
def groupById (l : List GradedItem) : List (PyStr × List GradedItem) :=
  l.foldl addToGroups []

/-- The grouping performed by `ReporterAgent.run` for a non-failure report:
special marker ids are skipped, every other result joins its id's group. -/
def reporterGroups (l : List GradedItem) : List (PyStr × List GradedItem) :=
  groupById (l.filter fun it => ¬ isSpecialMarker it.base.cid)

/-- Consolidation: for each control id keep the worst item of its group
(`if worst_item:` keeps the entry whenever a worst item was determined). -/
def consolidated (l : List GradedItem) : List (PyStr × GradedItem) :=
  (reporterGroups l).foldl
    (fun acc g => match pickWorst g.2 with
      | some w => acc ++ [(g.1, w)]
      | none => acc) []

/-- Pass condition of `_calculate_summary` and of the per-entry status line:
a numeric score with `1 <= score < PASS_SCORE_THRESHOLD` (threshold 5). -/
def passCond (it : GradedItem) : Bool :=
  match it.score with
  | some s => 1 ≤ s ∧ s < 5
  | none => false

/-- `ReporterAgent._calculate_summary`: returns
(passed_count, failed_count, total_controls). -/
def calcSummary (cons : List (PyStr × GradedItem)) : Nat × Nat × Nat :=
  let total := cons.length
  let pf := cons.foldl
    (fun (pf : Nat × Nat) e => if passCond e.2 then (pf.1 + 1, pf.2) else (pf.1, pf.2 + 1))
    (0, 0)
  (pf.1, pf.2, total)

/-- Status string rendered for a consolidated entry in the report body. -/
def statusStr (it : GradedItem) : PyStr :=
  if passCond it then str2cp "PASS" else str2cp "FAIL"

/-!
### Spec-side selection (for the consolidation claim)

The specification describes the worst pick declaratively: map each entry to
a comparison value, pick the entry of maximum value, first-seen entry wins
ties. `selectWorstBy` is that description, parameterised by the comparison
value so that both the claimed value function and the source's value
function can be plugged in.
-/

/-- Maximum of `v` over `x :: xs`. -/
def maxBy (v : GradedItem → Int) (x : GradedItem) (xs : List GradedItem) : Int :=
  xs.foldl (fun m y => max m (v y)) (v x)

/-- Declarative worst pick: the first entry attaining the maximum comparison
value (stable, first-wins on tie). -/
def selectWorstBy (v : GradedItem → Int) : List GradedItem → Option GradedItem
  | [] => none
  | x :: xs => (x :: xs).find? fun y => decide (maxBy v x xs ≤ v y)

/-- The comparison value exactly as the claim states it: the score when it
is a valid number greater than 0, otherwise 10. -/
def vClaim (it : GradedItem) : Int :=
  match it.score with
  | some s => if 0 < s then s else 10
  | none => 10

/-!
### Control executor — `ControllerAgent.run` (src/backend/agents/controller.py)

External collaborators per control prompt file: the JSON load of the
definition, the query-embedding call, the vector-store query, and one
evaluation-model call per retrieved chunk. Each is an outcome parameter.
-/

/-- Outcome of loading one control definition file. -/
inductive PromptLoad where
  | fileMissing
  | badJson
  | loadRaised (e : PyStr)
  | loaded (cid : Option PyStr) (instrs : List PyStr) (desc : Option PyStr)
deriving DecidableEq

/-- Outcome of one evaluation-model call for one chunk. -/
inductive LLMOut where
  | ok (content : PyStr)
  | emptyContent
  | noResponse
  | raises (e : PyStr)
deriving DecidableEq

/-- Environment of one control prompt file: its basename-derived default id,
its load outcome, whether the query embedding succeeded, the vector-store
query outcome (error text or retrieved (id, text, distance) triples), and
the evaluation-model outcome per retrieved chunk. -/
structure PromptEnv where
  defaultId : PyStr
  load : PromptLoad
  embedOk : Bool
  query : Except PyStr (List (PyStr × PyStr × Int))
  llm : Nat → LLMOut

/-- Load-error text of `ControllerAgent.run`'s control-loading block
(`None` when the definition loaded with a nonempty instruction list). -/
def promptLoadError : PromptLoad → Option PyStr
  | .fileMissing => some (str2cp "Error: Prompt file missing.")
  | .badJson => some (str2cp "Error: Invalid JSON format.")
  | .loadRaised e => some (str2cp "Error: Unexpected loading prompt (" ++ e ++ str2cp ")")
  | .loaded _ instrs _ =>
    if instrs = [] then some (str2cp "Error: Prompt instructions missing.") else none

/-- Control id used for a prompt: the file's `control_id` when present,
otherwise the basename-derived default. -/
def promptCid (p : PromptEnv) : PyStr :=
  match p.load with
  | .loaded (some c) _ _ => c
  | _ => p.defaultId

/-- Description used for a prompt (default `"N/A"`). -/
def promptDesc (p : PromptEnv) : PyStr :=
  match p.load with
  | .loaded _ _ (some d) => d
  | _ => str2cp "N/A"

/-- Instruction list used for a prompt (default empty). -/
def promptInstrs (p : PromptEnv) : List PyStr :=
  match p.load with
  | .loaded _ instrs _ => instrs
  | _ => []

/-- Sentinel provenance marker of a load-failure result. -/
def loadErrSentinel : PyStr := str2cp "PROMPT_LOAD_ERROR"

/-- Chunk id generated by `ExtractorAgent.run` for chunk `i`
(`f"chunk_{i}"`): the real chunk provenance values. -/
def chunkName (i : Nat) : PyStr := str2cp "chunk_" ++ (Nat.toDigits 10 i).map Char.toNat

/-- Error marker written for a chunk whose evaluation-model call raised. -/
def llmErrMarker (e : PyStr) : PyStr :=
  str2cp "Error: LLM execution failed (" ++ e ++ str2cp ")"

/-- Result text recorded for one chunk from its evaluation-model outcome. -/
def llmResultText : LLMOut → PyStr
  | .ok c => c
  | .emptyContent => str2cp "Error: Empty Response from LLM agent."
  | .noResponse => str2cp "Error: No response object from LLM agent."
  | .raises e => llmErrMarker e

/-- Results contributed by one control prompt file, paired with the number
of evaluation-model calls made for it: a load failure emits exactly one
result with the sentinel provenance and no model call; an embedding failure,
query failure or empty retrieval each emit one informational result and no
model call; otherwise one result (and one model call) per retrieved chunk. -/
def promptItems (p : PromptEnv) : List CtrlItem × Nat :=
  match promptLoadError p.load with
  | some e => ([⟨promptCid p, promptDesc p, promptInstrs p, e, loadErrSentinel, -1⟩], 0)
  | none =>
    if ¬ p.embedOk then
      ([⟨promptCid p, promptDesc p, promptInstrs p,
         str2cp "Error: Failed to create query embedding for control.",
         str2cp "EMBEDDING_ERROR", -1⟩], 0)
    else
      match p.query with
      | .error e =>
        ([⟨promptCid p, promptDesc p, promptInstrs p,
           str2cp "Error: Vector store query failed (" ++ e ++ str2cp ")",
           str2cp "QUERY_ERROR", -1⟩], 0)
      | .ok [] =>
        ([⟨promptCid p, promptDesc p, promptInstrs p,
           str2cp "Info: No relevant text chunks found via vector search.",
           str2cp "NO_RELEVANT_CHUNKS", -1⟩], 0)
      | .ok chunks =>
        (chunks.mapIdx (fun i c =>
          ⟨promptCid p, promptDesc p, promptInstrs p,
           llmResultText (p.llm i), c.1, c.2.2⟩), chunks.length)

/-- `ControllerAgent.run` over a valid vector collection: with no OpenAI
client it returns the single `CONTROLLER_ERROR` result; otherwise the
per-prompt results are accumulated in order. -/
def controllerRun (clientOk : Bool) (prompts : List PromptEnv) : List CtrlItem :=
  if ¬ clientOk then
    [⟨str2cp "CONTROLLER_ERROR", [], [],
      str2cp "OpenAI client not configured for embeddings", str2cp "N/A", 0⟩]
  else (prompts.map fun p => (promptItems p).1).flatten

/-- Total number of evaluation-model calls made by `ControllerAgent.run`. -/
def controllerCalls (clientOk : Bool) (prompts : List PromptEnv) : Nat :=
  if ¬ clientOk then 0
  else (prompts.map fun p => (promptItems p).2).sum

/-!
### Category resolution — `OrchestratorAgent` (src/backend/agents/orchestrator.py)

The regex engine (`re.search`) is an external collaborator: `search pat txt`
is `some b` when the search ran and found (`b = true`) or did not find
(`b = false`) a match, and `none` when it raised `re.error` (which the
source logs and skips).
-/

/-- The known category list (module default of `KNOWN_META_CATEGORIES`). -/
def KNOWN : List PyStr :=
  [str2cp "KYC", str2cp "RGPD", str2cp "LCBFT", str2cp "MIFID",
   str2cp "RSE", str2cp "INTERNAL_REPORTING"]

/-- The keyword pattern table `CATEGORY_KEYWORDS`, in its fixed priority
order (Python dicts iterate in insertion order). -/
def CATEGORY_KEYWORDS : List (PyStr × List PyStr) :=
  [(str2cp "KYC",
    [str2cp "know your customer", str2cp "\\bkyc\\b",
     str2cp "client identification", str2cp "due diligence"]),
   (str2cp "RGPD",
    [str2cp "general data protection regulation", str2cp "\\brgpd\\b",
     str2cp "\\bgdpr\\b", str2cp "personal data", str2cp "data privacy",
     str2cp "consentement", str2cp "données personnelles"]),
   (str2cp "LCBFT",
    [str2cp "lutte contre le blanchiment", str2cp "financement du terrorisme",
     str2cp "\\blcb.?ft\\b", str2cp "aml", str2cp "anti.?money laundering"]),
   (str2cp "MIFID",
    [str2cp "markets in financial instruments directive", str2cp "\\bmifid\\b",
     str2cp "financial instrument", str2cp "investment advice",
     str2cp "appropriateness"]),
   (str2cp "RSE",
    [str2cp "responsabilité sociale des entreprises", str2cp "\\brse\\b",
     str2cp "csr", str2cp "corporate social responsibility",
     str2cp "environmental", str2cp "social", str2cp "governance",
     str2cp "esg"]),
   (str2cp "INTERNAL_REPORTING",
    [str2cp "internal report", str2cp "monthly summary",
     str2cp "activity log", str2cp "management update"])]

/-- First category of a list satisfying a predicate, empty string when none
does (the for-loop-with-return idiom of the source). -/
def firstMatch (p : PyStr → Bool) : List PyStr → PyStr
  | [] => []
  | c :: rest => if p c then c else firstMatch p rest

/-- Split a string into components at `'/'` (code point 47). -/
def splitOn47 : PyStr → List PyStr
  | [] => [[]]
  | c :: rest =>
    let r := splitOn47 rest
    if c = 47 then [] :: r
    else
      match r with
      | [] => [[c]]
      | h :: tl => (c :: h) :: tl

/-- Python's `str(path).replace("\\", "/")` normalization. -/
def replaceBackslash (p : PyStr) : PyStr :=
  p.map fun n => if n = 92 then 47 else n

/-- `pathlib.Path(p).parent.name` for a resolved absolute POSIX path:
the second-to-last slash-separated component. -/
def parentDirName (absPath : PyStr) : PyStr :=
  ((splitOn47 absPath).dropLast).getLastD []

/-- Python's substring test `pat in s`. -/
def hasSub (pat : PyStr) : PyStr → Bool
  | [] => pat.isEmpty
  | c :: rest => pat.isPrefixOf (c :: rest) || hasSub pat rest

/-- Whether the normalized, lower-cased path contains `"/" + cat + "/"`. -/
def pathHasDelimited (absPath : PyStr) (cat : PyStr) : Bool :=
  hasSub (47 :: (pyLower cat ++ [47])) (pyLower (replaceBackslash absPath))

/-- `OrchestratorAgent._determine_category_from_path`: first try the
immediate parent directory name (case-insensitive), then look for a
category delimited by separators anywhere in the normalized path. -/
def determineCategoryFromPath (absPath : PyStr) : PyStr :=
  let parent := parentDirName absPath
  let r1 := firstMatch (fun c => pyLower parent = pyLower c) KNOWN
  if r1 ≠ [] then r1
  else firstMatch (fun c => pathHasDelimited absPath c) KNOWN

/-- Inner pattern loop of `_determine_category_from_content`: true when some
pattern search succeeds and matches; failed searches (`re.error`) and
non-matches are skipped. -/
def patLoop (search : PyStr → PyStr → Option Bool) (textLower : PyStr) : List PyStr → Bool
  | [] => false
  | p :: ps =>
    match search p textLower with
    | some true => true
    | _ => patLoop search textLower ps

/-- Outer category loop of `_determine_category_from_content`: categories in
table order, skipping table entries not in the known list. -/
def contentLoop (search : PyStr → PyStr → Option Bool) (textLower : PyStr) :
    List (PyStr × List PyStr) → PyStr
  | [] => []
  | (cat, pats) :: rest =>
    if cat ∈ KNOWN then
      if patLoop search textLower pats then cat
      else contentLoop search textLower rest
    else contentLoop search textLower rest

/-- `OrchestratorAgent._determine_category_from_content`: empty chunk yields
no category; otherwise keyword matching on the lower-cased chunk. -/
def determineCategoryFromContent (search : PyStr → PyStr → Option Bool)
    (chunk : PyStr) : PyStr :=
  if chunk = [] then []
  else contentLoop search (pyLower chunk) CATEGORY_KEYWORDS

/-- The category resolution steps of `run_control_chain`: a specified
category whose upper-case form is known wins; else path detection; else (if
a first chunk is available) content detection. Empty string means failure. -/
def resolveCategory (specified : Option PyStr) (absPath : PyStr)
    (search : PyStr → PyStr → Option Bool) (chunkOpt : Option PyStr) : PyStr :=
  let m1 : PyStr :=
    match specified with
    | some s => if pyUpper s ∈ KNOWN then pyUpper s else []
    | none => []
  let m2 := if m1 = [] then determineCategoryFromPath absPath else m1
  if m2 = [] then
    match chunkOpt with
    | some c => determineCategoryFromContent search c
    | none => []
  else m2

/-- The spec's category-resolution cascade, written from the specification's
words: (1) a caller-supplied category matching the known set
case-insensitively; (2) the immediate parent directory name matched
case-insensitively; (3) a known category delimited by path separators in the
full normalized path; (4) keyword matching on the first retrieved chunk in
the fixed priority order; (5) otherwise no category. -/
def categoryCascadeSpec (specified : Option PyStr) (absPath : PyStr)
    (search : PyStr → PyStr → Option Bool) (chunkOpt : Option PyStr) : Option PyStr :=
  match specified.bind (fun s => KNOWN.find? fun c => decide (ciEq s c)) with
  | some c => some c
  | none =>
    match KNOWN.find? (fun c => decide (ciEq (parentDirName absPath) c)) with
    | some c => some c
    | none =>
      match KNOWN.find? (fun c => pathHasDelimited absPath c) with
      | some c => some c
      | none =>
        chunkOpt.bind fun chunk =>
          (CATEGORY_KEYWORDS.find? fun cp =>
            cp.2.any fun p => search p (pyLower chunk) = some true).map Prod.fst

/-!
### Control chain — `OrchestratorAgent.run_control_chain`

The chain threads the vector-store collection lifecycle. It is modelled as a
function from an environment (the outcomes of every external call) to the
chain's outcome plus the trace of collection create/delete events. Deleting
a collection is one `delete` event; the source attempts deletion inside
`try` blocks whose own failure is logged and not fatal, so an event records
that deletion was invoked on that path.
-/

/-- Outcome of `ExtractorAgent.run`: a failure before any collection was
created; a ChromaDB failure after creation (the source deletes the partial
collection before returning the error); extraction success with no content
(`(None, None)`); or a populated collection (its name and chunk texts). -/
inductive ExtractOut where
  | failNoCreate (msg : PyStr)
  | failAfterCreate (name : PyStr) (msg : PyStr)
  | noContent
  | ok (name : PyStr) (chunks : List PyStr)

/-- Vector-store lifecycle events. -/
inductive VEvent where
  | create (name : PyStr)
  | delete (name : PyStr)
deriving DecidableEq

/-- Collection events produced inside `ExtractorAgent.run` itself. -/
def extractEvents : ExtractOut → List VEvent
  | .failNoCreate _ => []
  | .failAfterCreate n _ => [.create n, .delete n]
  | .noContent => []
  | .ok n _ => [.create n]

/-- Environment of one `run_control_chain` invocation: the caller-specified
category, the resolved absolute document path, the regex engine, the
extractor outcome, whether `collection.peek` succeeded, whether the
controller's OpenAI client is configured, the valid prompt files returned by
the selector (with their downstream outcomes), and the grading outcomes. -/
structure ChainEnv where
  specified : Option PyStr
  absPath : PyStr
  search : PyStr → PyStr → Option Bool
  extract : ExtractOut
  peekOk : Bool
  controllerClientOk : Bool
  prompts : List PromptEnv
  grades : Nat → GradeResp

/-- Result of one `run_control_chain` invocation: the returned result list
(`None` on failure paths), the result dictionaries handed to the reporter,
whether the report is a failure report, and the collection event trace. -/
structure ChainResult where
  results : Option (List GradedItem)
  reportItems : List GradedItem
  isFailure : Bool
  events : List VEvent

/-- Sentinel result dictionary for an extraction/embedding failure
(`{'id': 'EXTRACTION_EMBED_FAILURE', 'result': msg, 'score': 10}`; keys the
dictionary does not carry are modelled as empty). -/
def extractFailItem (msg : PyStr) : GradedItem :=
  ⟨⟨str2cp "EXTRACTION_EMBED_FAILURE", [], [], msg, [], 0⟩, some 10⟩

/-- Sentinel result dictionary for a run whose extraction found no content. -/
def noContentItem (absPath : PyStr) : GradedItem :=
  ⟨⟨str2cp "NO_CONTENT", str2cp "Extraction yielded no content", [],
    str2cp "Extraction successful, but no text content found or embedded in "
      ++ absPath ++ str2cp ". Cannot apply controls.", [], 0⟩, some 0⟩

/-- Sentinel result dictionary for a category-determination failure (the
source's message also lists the known categories; that suffix is elided). -/
def categoryFailItem (absPath : PyStr) : GradedItem :=
  ⟨⟨str2cp "CATEGORY_FAILURE", [], [],
    str2cp "Could not determine a valid control category for " ++ absPath
      ++ str2cp " after path and content checks.", [], 0⟩, some 10⟩

/-- Sentinel result dictionary for a category with no valid prompts. -/
def skipItem (meta : PyStr) : GradedItem :=
  ⟨⟨str2cp "SKIP_" ++ meta, str2cp "Control execution skipped (no valid prompts)", [],
    str2cp "No valid prompts found for category " ++ meta ++ str2cp ".", [], 0⟩, some 0⟩

/-- Sentinel result dictionary for a controller that returned no results. -/
def controllerFailItem (meta : PyStr) : GradedItem :=
  ⟨⟨str2cp "FAIL_CONTROLLER_" ++ meta, str2cp "Controller execution failed", [],
    str2cp "Controller agent returned empty results list.", [], 0⟩, some 10⟩

/-- First chunk obtained from `collection.peek(limit=1)` for content-based
detection: requires the peek call to succeed and the retrieved first
document to be truthy (nonempty). -/
def peekChunk (peekOk : Bool) (chunks : List PyStr) : Option PyStr :=
  if peekOk then
    match chunks.head? with
    | some c => if c = [] then none else some c
    | none => none
  else none

/-- `OrchestratorAgent.run_control_chain`: category steps 1a/1b, extraction,
content-based fallback, terminal category failure, prompt selection, control
execution, collection teardown, grading, reporting. -/
def runControlChain (env : ChainEnv) : ChainResult :=
  match env.extract with
  | .failNoCreate msg =>
    { results := none, reportItems := [extractFailItem msg], isFailure := true,
      events := extractEvents (.failNoCreate msg) }
  | .failAfterCreate n msg =>
    { results := none, reportItems := [extractFailItem msg], isFailure := true,
      events := extractEvents (.failAfterCreate n msg) }
  | .noContent =>
    let items := [noContentItem env.absPath]
    { results := some items, reportItems := items, isFailure := false,
      events := extractEvents .noContent }
  | .ok n chunks =>
    let meta := resolveCategory env.specified env.absPath env.search
      (peekChunk env.peekOk chunks)
    if meta = [] then
      { results := none, reportItems := [categoryFailItem env.absPath],
        isFailure := true, events := [.create n, .delete n] }
    else if env.prompts.isEmpty then
      let items := [skipItem meta]
      { results := some items, reportItems := items, isFailure := false,
        events := [.create n, .delete n] }
    else
      let raw := controllerRun env.controllerClientOk env.prompts
      let detailed :=
        if raw = [] then [controllerFailItem meta]
        else graderRun raw env.grades
      { results := some detailed, reportItems := detailed, isFailure := false,
        events := [.create n, .delete n] }

/-!
## Theorems

### Chunker lemmas
-/

theorem chunkLoopF_succ (t : PyStr) (size overlap fuel s : Nat) :
    chunkLoopF (fuel + 1) t size overlap s =
      if s < t.length then
        (if s + size - overlap ≤ s then [(t.drop s).take size]
         else (t.drop s).take size :: chunkLoopF fuel t size overlap (s + size - overlap))
      else [] := rfl

theorem chunkStartsF_succ (L size overlap fuel s : Nat) :
    chunkStartsF (fuel + 1) L size overlap s =
      if s < L then
        (if s + size - overlap ≤ s then [s]
         else s :: chunkStartsF fuel L size overlap (s + size - overlap))
      else [] := rfl

theorem chunkLoopF_ge (t : PyStr) (size overlap fuel s : Nat) (h : t.length ≤ s) :
    chunkLoopF fuel t size overlap s = [] := by
  cases fuel with
  | zero => rfl
  | succ n => rw [chunkLoopF_succ, if_neg (by omega)]

theorem chunkLoopF_ne_nil (t : PyStr) (size overlap fuel s : Nat) (h : s < t.length) :
    chunkLoopF (fuel + 1) t size overlap s ≠ [] := by
  rw [chunkLoopF_succ, if_pos h]
  split <;> simp

theorem chunkLoopF_getD (t : PyStr) (size overlap : Nat) (hO : overlap < size) :
    ∀ fuel s, t.length - s < fuel →
    ∀ i, i < (chunkLoopF fuel t size overlap s).length →
      (chunkLoopF fuel t size overlap s).getD i [] =
        (t.drop (s + i * (size - overlap))).take size := by
  intro fuel
  induction fuel with
  | zero => intro s hs; omega
  | succ n ih =>
    intro s hs i h
    by_cases hlt : s < t.length
    · have hnb : ¬ (s + size - overlap ≤ s) := by omega
      rw [chunkLoopF_succ] at h ⊢
      rw [if_pos hlt, if_neg hnb] at h ⊢
      cases i with
      | zero => simp
      | succ j =>
        simp only [List.length_cons, Nat.add_lt_add_iff_right] at h
        rw [List.getD_cons_succ]
        rw [ih (s + size - overlap) (by omega) j h]
        have hmul : (j + 1) * (size - overlap) = j * (size - overlap) + (size - overlap) :=
          Nat.succ_mul j (size - overlap)
        have harg : s + size - overlap + j * (size - overlap) = s + (j + 1) * (size - overlap) := by
          rw [hmul]
          omega
        rw [harg]
    · rw [chunkLoopF_ge t size overlap (n + 1) s (by omega)] at h
      simp at h

theorem chunkStartsF_length (t : PyStr) (size overlap : Nat) :
    ∀ fuel s, (chunkStartsF fuel t.length size overlap s).length =
      (chunkLoopF fuel t size overlap s).length := by
  intro fuel
  induction fuel with
  | zero => intro s; rfl
  | succ n ih =>
    intro s
    rw [chunkStartsF_succ, chunkLoopF_succ]
    by_cases hlt : s < t.length
    · rw [if_pos hlt, if_pos hlt]
      by_cases hb : s + size - overlap ≤ s
      · rw [if_pos hb, if_pos hb]
        rfl
      · rw [if_neg hb, if_neg hb]
        simp [ih]
    · rw [if_neg hlt, if_neg hlt]
      rfl

theorem chunkStartsF_getD (L size overlap : Nat) (hO : overlap < size) :
    ∀ fuel s, L - s < fuel →
    ∀ i, i < (chunkStartsF fuel L size overlap s).length →
      (chunkStartsF fuel L size overlap s).getD i 0 = s + i * (size - overlap) := by
  intro fuel
  induction fuel with
  | zero => intro s hs; omega
  | succ n ih =>
    intro s hs i h
    by_cases hlt : s < L
    · have hnb : ¬ (s + size - overlap ≤ s) := by omega
      rw [chunkStartsF_succ] at h ⊢
      rw [if_pos hlt, if_neg hnb] at h ⊢
      cases i with
      | zero => simp
      | succ j =>
        simp only [List.length_cons, Nat.add_lt_add_iff_right] at h
        rw [List.getD_cons_succ]
        rw [ih (s + size - overlap) (by omega) j h]
        have hmul : (j + 1) * (size - overlap) = j * (size - overlap) + (size - overlap) :=
          Nat.succ_mul j (size - overlap)
        rw [hmul]
        omega
    · rw [chunkStartsF_succ, if_neg hlt] at h
      simp at h

theorem chunkStartsF_mem_lt (L size overlap : Nat) :
    ∀ fuel s, ∀ x ∈ chunkStartsF fuel L size overlap s, x < L := by
  intro fuel
  induction fuel with
  | zero => intro s x hx; simp [chunkStartsF] at hx
  | succ n ih =>
    intro s x hx
    rw [chunkStartsF_succ] at hx
    by_cases hlt : s < L
    · rw [if_pos hlt] at hx
      by_cases hb : s + size - overlap ≤ s
      · rw [if_pos hb] at hx
        simp at hx
        omega
      · rw [if_neg hb] at hx
        simp only [List.mem_cons] at hx
        rcases hx with rfl | hx
        · exact hlt
        · exact ih _ _ hx
    · rw [if_neg hlt] at hx
      simp at hx

theorem chunkLoopF_last (t : PyStr) (size overlap : Nat) (hO : overlap < size) :
    ∀ fuel s, t.length - s < fuel → s < t.length →
      t.length ≤ s + ((chunkLoopF fuel t size overlap s).length - 1) * (size - overlap) + size := by
  intro fuel
  induction fuel with
  | zero => intro s hs; omega
  | succ n ih =>
    intro s hs hlt
    have hnb : ¬ (s + size - overlap ≤ s) := by omega
    rw [chunkLoopF_succ]
    rw [if_pos hlt, if_neg hnb]
    by_cases hnext : s + size - overlap < t.length
    · have hne : chunkLoopF n t size overlap (s + size - overlap) ≠ [] := by
        cases n with
        | zero => omega
        | succ m => exact chunkLoopF_ne_nil t size overlap m _ hnext
      have hih := ih (s + size - overlap) (by omega) hnext
      obtain ⟨k, hk⟩ : ∃ k, (chunkLoopF n t size overlap (s + size - overlap)).length = k + 1 :=
        ⟨_, (Nat.succ_pred_eq_of_pos (List.length_pos.mpr hne)).symm⟩
      rw [hk] at hih
      simp only [List.length_cons, Nat.add_sub_cancel] at hih ⊢
      rw [hk]
      rw [Nat.succ_mul]
      omega
    · have hnil : chunkLoopF n t size overlap (s + size - overlap) = [] :=
        chunkLoopF_ge t size overlap n _ (by omega)
      rw [hnil]
      simp only [List.length_cons, List.length_nil, Nat.zero_add, Nat.add_sub_cancel,
        Nat.zero_mul, Nat.add_zero]
      omega

theorem chunkLoopF_deov (t : PyStr) (size overlap : Nat) (hO : overlap < size) :
    ∀ fuel s, t.length - s < fuel →
      ((chunkLoopF fuel t size overlap s).map (fun x => x.drop overlap)).flatten =
        t.drop (s + overlap) := by
  intro fuel
  induction fuel with
  | zero => intro s hs; omega
  | succ n ih =>
    intro s hs
    by_cases hlt : s < t.length
    · have hnb : ¬ (s + size - overlap ≤ s) := by omega
      rw [chunkLoopF_succ]
      rw [if_pos hlt, if_neg hnb]
      simp only [List.map_cons, List.flatten_cons]
      rw [ih (s + size - overlap) (by omega)]
      rw [List.drop_take]
      have h1 : s + size - overlap + overlap = s + size := by omega
      rw [h1]
      have h3 : t.drop (s + size) = ((t.drop s).drop overlap).drop (size - overlap) := by
        rw [List.drop_drop, List.drop_drop]
        congr 1
        omega
      have h4 : (t.drop s).drop overlap = t.drop (s + overlap) := by
        rw [List.drop_drop]
      rw [h3, h4, List.take_append_drop]
    · rw [chunkLoopF_ge t size overlap (n + 1) s (by omega)]
      simp [List.drop_eq_nil_of_le (by omega : t.length ≤ s + overlap)]

theorem chunkText_pos (t : PyStr) (size overlap : Nat) (h1 : 0 < size)
    (h2 : overlap < size) (h3 : t ≠ []) :
    chunkText t (size : Int) (overlap : Int) = chunkLoopF (t.length + 1) t size overlap 0 := by
  unfold chunkText
  rw [if_neg (by exact_mod_cast by omega : ¬ ((size : Int) ≤ 0))]
  simp only [if_neg h3]
  rw [if_neg (by exact_mod_cast by omega : ¬ ((overlap : Int) ≥ (size : Int)))]
  rw [if_neg (by exact_mod_cast by omega : ¬ ((overlap : Int) < 0))]
  simp

/-- Claim C4, counterexample: for text `"01234"` of length 5 with effective
size 4 and effective overlap 2, the chunks are `"0123"`, `"234"`, `"4"`; the
third chunk comes after the first but shares only one character with its
predecessor (its first-2-characters window has length 1 and differs from the
predecessor's last 2 characters), so the claim's clause that every chunk
after the first overlaps its predecessor by exactly O characters is false. -/
theorem c4_overlap_counterexample :
    chunkText (str2cp "01234") 4 2 = [str2cp "0123", str2cp "234", str2cp "4"] ∧
    ((str2cp "4").take 2).length ≠ 2 ∧
    (str2cp "4").take 2 ≠ lastN (str2cp "234") 2 := by decide

/-- Claim C4 (amended): for every non-empty text chunked with effective size
`S > 0` and effective overlap `O < S`: the chunk list is non-empty and has
one start offset per chunk; chunk `i` is the `S`-window of the text at its
start offset; the start offset of chunk `i+1` is that of chunk `i` plus
`S - O`; every chunk after the first overlaps its predecessor by exactly
`min O (L - start_offset[i+1])` characters (which is exactly `O` except for
trailing chunks that begin within `O` of the end of the text); the last
chunk ends exactly at offset `L`; and concatenating the chunks with the
`O`-character overlaps removed reconstructs the original text. -/
theorem c4_chunk_invariants (t : PyStr) (size overlap : Nat)
    (ht : t ≠ []) (hS : 0 < size) (hO : overlap < size) :
    chunkText t (size : Int) (overlap : Int) ≠ [] ∧
    (chunkStarts t size overlap).length = (chunkText t (size : Int) (overlap : Int)).length ∧
    (∀ i, i < (chunkText t (size : Int) (overlap : Int)).length →
      (chunkText t (size : Int) (overlap : Int)).getD i [] =
        (t.drop ((chunkStarts t size overlap).getD i 0)).take size) ∧
    (∀ i, i + 1 < (chunkText t (size : Int) (overlap : Int)).length →
      (chunkStarts t size overlap).getD (i + 1) 0 =
        (chunkStarts t size overlap).getD i 0 + (size - overlap)) ∧
    (∀ i, i + 1 < (chunkText t (size : Int) (overlap : Int)).length →
      (((chunkText t (size : Int) (overlap : Int)).getD (i + 1) []).take overlap).length =
        min overlap (t.length - (chunkStarts t size overlap).getD (i + 1) 0) ∧
      ((chunkText t (size : Int) (overlap : Int)).getD (i + 1) []).take overlap =
        lastN ((chunkText t (size : Int) (overlap : Int)).getD i [])
          (min overlap (t.length - (chunkStarts t size overlap).getD (i + 1) 0))) ∧
    ((chunkStarts t size overlap).getD
        ((chunkText t (size : Int) (overlap : Int)).length - 1) 0 +
      ((chunkText t (size : Int) (overlap : Int)).getD
        ((chunkText t (size : Int) (overlap : Int)).length - 1) []).length = t.length) ∧
    deOverlap (chunkText t (size : Int) (overlap : Int)) overlap = t := by
  have hL : 0 < t.length := List.length_pos.mpr ht
  have hred := chunkText_pos t size overlap hS hO ht
  have hfuel : t.length - 0 < t.length + 1 := by omega
  have hlen := chunkStartsF_length t size overlap (t.length + 1) 0
  have hne : chunkLoopF (t.length + 1) t size overlap 0 ≠ [] :=
    chunkLoopF_ne_nil t size overlap t.length 0 hL
  have hgetc := chunkLoopF_getD t size overlap hO (t.length + 1) 0 hfuel
  have hgets := chunkStartsF_getD t.length size overlap hO (t.length + 1) 0 hfuel
  simp only [Nat.zero_add] at hgetc hgets
  have hstart_lt : ∀ i, i < (chunkStartsF (t.length + 1) t.length size overlap 0).length →
      i * (size - overlap) < t.length := by
    intro i hi
    have hmem : (chunkStartsF (t.length + 1) t.length size overlap 0).getD i 0 ∈
        chunkStartsF (t.length + 1) t.length size overlap 0 := by
      rw [List.getD_eq_getElem _ _ hi]
      exact List.getElem_mem hi
    have := chunkStartsF_mem_lt t.length size overlap (t.length + 1) 0 _ hmem
    rwa [hgets i hi] at this
  rw [hred]
  unfold chunkStarts
  rw [hlen]
  refine ⟨hne, rfl, ?_, ?_, ?_, ?_, ?_⟩
  · intro i hi
    rw [hgetc i hi, hgets i (by rw [hlen]; exact hi)]
  · intro i hi
    rw [hgets (i + 1) (by rw [hlen]; exact hi),
        hgets i (by rw [hlen]; omega)]
    have hmul : (i + 1) * (size - overlap) = i * (size - overlap) + (size - overlap) :=
      Nat.succ_mul i (size - overlap)
    omega
  · intro i hi
    rw [hgetc (i + 1) hi, hgetc i (by omega),
        hgets (i + 1) (by rw [hlen]; exact hi)]
    have hA : (i + 1) * (size - overlap) < t.length :=
      hstart_lt (i + 1) (by rw [hlen]; exact hi)
    have hmul : (i + 1) * (size - overlap) = i * (size - overlap) + (size - overlap) :=
      Nat.succ_mul i (size - overlap)
    constructor
    · rw [List.take_take, Nat.min_def]
      rw [if_pos (by omega : overlap ≤ size)]
      rw [List.length_take, List.length_drop]
    · -- the take-overlap window of chunk i+1 equals the matching suffix of chunk i
      set A := (i + 1) * (size - overlap) with hAdef
      set B := i * (size - overlap) with hBdef
      have hm : ((t.drop B).take size).length = min size (t.length - B) := by
        rw [List.length_take, List.length_drop]
      unfold lastN
      rw [hm]
      have hsub : min size (t.length - B) - min overlap (t.length - A) = size - overlap := by
        omega
      rw [hsub]
      rw [List.drop_take]
      rw [List.drop_drop]
      rw [List.take_take]
      have e1 : overlap ⊓ size = overlap := by omega
      have e2 : size - (size - overlap) = overlap := by omega
      have h2 : B + (size - overlap) = A := by omega
      rw [e1, e2, h2]
  · have hn : 1 ≤ (chunkLoopF (t.length + 1) t size overlap 0).length :=
      List.length_pos.mpr hne
    set n := (chunkLoopF (t.length + 1) t size overlap 0).length with hndef
    rw [hgetc (n - 1) (by omega), hgets (n - 1) (by rw [hlen]; omega)]
    have hlast := chunkLoopF_last t size overlap hO (t.length + 1) 0 hfuel hL
    rw [← hndef] at hlast
    simp only [Nat.zero_add] at hlast
    have hltL : (n - 1) * (size - overlap) < t.length :=
      hstart_lt (n - 1) (by rw [hlen]; omega)
    rw [List.length_take, List.length_drop]
    omega
  · rw [chunkLoopF_succ]
    rw [if_pos hL, if_neg (by omega : ¬ (0 + size - overlap ≤ 0))]
    simp only [deOverlap]
    rw [chunkLoopF_deov t size overlap hO t.length (0 + size - overlap) (by omega)]
    have h2 : 0 + size - overlap + overlap = size := by omega
    rw [h2, List.drop_zero]
    exact List.take_append_drop size t

/-- Claim C5, counterexample: on empty input text with `size <= 0` the
chunker returns the single whole-text (empty) chunk `[""]`, not the empty
sequence, because the `size <= 0` fallback is checked first — so the
clause "empty input text returns the empty sequence regardless of the size
and overlap values" is false. -/
theorem c5_empty_text_counterexample :
    chunkText [] 0 5 = [[]] ∧ chunkText [] 0 5 ≠ [] := by decide

/-- Claim C5 (amended): the chunker never fails: `size <= 0` returns the
whole text as one chunk (even for empty text); `overlap >= size` behaves as
if overlap were `size // 2`; `overlap < 0` behaves as if overlap were `0`;
and for empty input text with positive size it returns the empty sequence. -/
theorem c5_chunker_fallbacks (t : PyStr) (size overlap : Int) :
    (size ≤ 0 → chunkText t size overlap = [t]) ∧
    (size ≤ overlap → chunkText t size overlap = chunkText t size (size / 2)) ∧
    (overlap < 0 → chunkText t size overlap = chunkText t size 0) ∧
    (0 < size → chunkText [] size overlap = []) := by
  refine ⟨?_, ?_, ?_, ?_⟩
  · intro h
    unfold chunkText
    rw [if_pos h]
  · intro h
    unfold chunkText
    by_cases hs : size ≤ 0
    · rw [if_pos hs, if_pos hs]
    · rw [if_neg hs, if_neg hs]
      rw [if_pos (by omega : overlap ≥ size)]
      rw [if_neg (by omega : ¬ (size / 2 ≥ size))]
      rw [if_neg (by omega : ¬ ((size : Int) / 2 < 0))]
      have : max 0 (size / 2) = size / 2 := by omega
      rw [this]
  · intro h
    unfold chunkText
    by_cases hs : size ≤ 0
    · rw [if_pos hs, if_pos hs]
    · rw [if_neg hs, if_neg hs]
      rw [if_neg (by omega : ¬ (overlap ≥ size))]
      rw [if_pos h]
      rw [if_neg (by omega : ¬ ((0 : Int) ≥ size))]
      rw [if_neg (by omega : ¬ ((0 : Int) < 0))]
  · intro h
    unfold chunkText
    rw [if_neg (by omega : ¬ (size ≤ 0))]
    simp

/-- Witness for C4 at text `"01234"`, size 4, overlap 2. -/
theorem c4_chunk_invariants_witness :
    str2cp "01234" ≠ [] ∧ 0 < 4 ∧ 2 < 4 ∧
    deOverlap (chunkText (str2cp "01234") 4 2) 2 = str2cp "01234" :=
  ⟨by decide, by decide, by decide,
   (c4_chunk_invariants (str2cp "01234") 4 2 (by decide) (by decide) (by decide)).2.2.2.2.2.2⟩

/-- Witness for C5 at concrete inputs exercising each fallback. -/
theorem c5_chunker_fallbacks_witness :
    chunkText (str2cp "ab") 0 7 = [str2cp "ab"] ∧
    chunkText (str2cp "abcde") 2 5 = chunkText (str2cp "abcde") 2 (2 / 2) ∧
    chunkText (str2cp "abcde") 2 (-3) = chunkText (str2cp "abcde") 2 0 ∧
    chunkText [] 2 1 = [] :=
  ⟨(c5_chunker_fallbacks (str2cp "ab") 0 7).1 (by decide),
   (c5_chunker_fallbacks (str2cp "abcde") 2 5).2.1 (by decide),
   (c5_chunker_fallbacks (str2cp "abcde") 2 (-3)).2.2.1 (by decide),
   (c5_chunker_fallbacks (str2cp "x") 2 1).2.2.2 (by decide)⟩

/-!
### Grader theorems
-/

theorem gradeScore_range (r : GradeResp) : 1 ≤ gradeScore r ∧ gradeScore r ≤ 10 := by
  cases r with
  | callFails => exact ⟨by decide, by decide⟩
  | noContent => exact ⟨by decide, by decide⟩
  | content s =>
    by_cases h : s = []
    · simp [gradeScore, h]
    · simp only [gradeScore, if_neg h]
      rcases hp : pyParseInt (pyStrip s) with _ | n
      · exact ⟨by decide, by decide⟩
      · dsimp only
        by_cases hr : 1 ≤ n ∧ n ≤ 10
        · rw [if_pos hr]; exact hr
        · rw [if_neg hr]; exact ⟨by decide, by decide⟩

/-- Claim C2: a grader response parsing to an integer in `[1,10]` is used
unchanged; one parsing to an integer outside `[1,10]` scores exactly 10; a
non-integer response, an empty response, and a failed grading call each
score exactly 10 — and every grading outcome yields a score in `[1,10]`, so
a grading failure never produces a score in 1-4 and never leaves the score
unset. -/
theorem c2_grader_fail_closed (s : PyStr) (n : Int) :
    (pyParseInt (pyStrip s) = some n → s ≠ [] → 1 ≤ n → n ≤ 10 →
      gradeScore (.content s) = n) ∧
    (pyParseInt (pyStrip s) = some n → s ≠ [] → ¬ (1 ≤ n ∧ n ≤ 10) →
      gradeScore (.content s) = 10) ∧
    (pyParseInt (pyStrip s) = none → gradeScore (.content s) = 10) ∧
    gradeScore (.content []) = 10 ∧
    gradeScore .noContent = 10 ∧
    gradeScore .callFails = 10 ∧
    (∀ r : GradeResp, 1 ≤ gradeScore r ∧ gradeScore r ≤ 10) := by
  refine ⟨?_, ?_, ?_, by decide, by decide, by decide, gradeScore_range⟩
  · intro hp hne h1 h10
    simp only [gradeScore, if_neg hne, hp]
    rw [if_pos ⟨h1, h10⟩]
  · intro hp hne hout
    simp only [gradeScore, if_neg hne, hp]
    rw [if_neg hout]
  · intro hp
    by_cases hne : s = []
    · simp [gradeScore, hne]
    · simp only [gradeScore, if_neg hne, hp]

/-- Witness for C2 at concrete grader responses. -/
theorem c2_grader_fail_closed_witness :
    gradeScore (.content (str2cp " 7 ")) = 7 ∧
    gradeScore (.content (str2cp "11")) = 10 ∧
    gradeScore (.content (str2cp "high risk")) = 10 :=
  ⟨(c2_grader_fail_closed (str2cp " 7 ") 7).1 (by decide) (by decide) (by decide) (by decide),
   (c2_grader_fail_closed (str2cp "11") 11).2.1 (by decide) (by decide) (by decide),
   (c2_grader_fail_closed (str2cp "high risk") 0).2.2.1 (by decide)⟩

theorem graderRun_cons (a : CtrlItem) (l : List CtrlItem) (resp : Nat → GradeResp) :
    graderRun (a :: l) resp =
      ⟨a, some (gradeScore (resp 0))⟩ :: graderRun l (fun i => resp (i + 1)) := by
  simp [graderRun, List.mapIdx_cons]

/-- Claim C10: the grader returns one output per input in the same order,
leaving every other field of each result dictionary unchanged and setting
its score to an integer in `[1,10]` — in particular no returned element ever
carries the documented `-1` failure sentinel or any out-of-range value. -/
theorem c10_grader_frame (l : List CtrlItem) (resp : Nat → GradeResp) :
    (graderRun l resp).length = l.length ∧
    (graderRun l resp).map (fun g => g.base) = l ∧
    ∀ g ∈ graderRun l resp, ∃ s, g.score = some s ∧ 1 ≤ s ∧ s ≤ 10 := by
  refine ⟨?_, ?_, ?_⟩
  · simp [graderRun]
  · induction l generalizing resp with
    | nil => rfl
    | cons a l ih =>
      rw [graderRun_cons]
      simp only [List.map_cons]
      rw [ih]
  · induction l generalizing resp with
    | nil => intro g hg; simp [graderRun] at hg
    | cons a l ih =>
      intro g hg
      rw [graderRun_cons] at hg
      rcases List.mem_cons.mp hg with rfl | hg
      · exact ⟨gradeScore (resp 0), rfl,
          (gradeScore_range (resp 0)).1, (gradeScore_range (resp 0)).2⟩
      · exact ih (fun i => resp (i + 1)) g hg

/-!
### Controller theorems
-/

theorem loadErrSentinel_ne_chunkName (i : Nat) : loadErrSentinel ≠ chunkName i := by
  intro h
  have h80 : loadErrSentinel.head? = some 80 := rfl
  have h99 : (chunkName i).head? = some 99 := rfl
  rw [h, h99] at h80
  simp at h80

theorem controllerRun_append (a b : List PromptEnv) :
    controllerRun true (a ++ b) = controllerRun true a ++ controllerRun true b := by
  simp [controllerRun]

theorem controllerRun_cons (p : PromptEnv) (l : List PromptEnv) :
    controllerRun true (p :: l) = (promptItems p).1 ++ controllerRun true l := by
  simp [controllerRun]

theorem controllerCalls_append (a b : List PromptEnv) :
    controllerCalls true (a ++ b) = controllerCalls true a + controllerCalls true b := by
  simp [controllerCalls]

theorem controllerCalls_cons (p : PromptEnv) (l : List PromptEnv) :
    controllerCalls true (p :: l) = (promptItems p).2 + controllerCalls true l := by
  simp [controllerCalls]

/-- Claim C7: a control definition that fails to load (missing file, invalid
JSON, load exception, or missing/empty instruction list) contributes exactly
one result carrying the load-error text, whose provenance is the
`PROMPT_LOAD_ERROR` sentinel — distinct from every real chunk id
`"chunk_i"` the extractor generates — with no evaluation-model call for that
control, while the surrounding controls are processed unchanged. -/
theorem c7_load_failure_single_result (pre post : List PromptEnv) (p : PromptEnv) (e : PyStr)
    (h : promptLoadError p.load = some e) :
    promptItems p = ([⟨promptCid p, promptDesc p, promptInstrs p, e, loadErrSentinel, -1⟩], 0) ∧
    controllerRun true (pre ++ p :: post) =
      controllerRun true pre ++
        [⟨promptCid p, promptDesc p, promptInstrs p, e, loadErrSentinel, -1⟩] ++
        controllerRun true post ∧
    controllerCalls true (pre ++ p :: post) =
      controllerCalls true pre + controllerCalls true post ∧
    ∀ i, loadErrSentinel ≠ chunkName i := by
  have hitems : promptItems p =
      ([⟨promptCid p, promptDesc p, promptInstrs p, e, loadErrSentinel, -1⟩], 0) := by
    unfold promptItems
    rw [h]
  refine ⟨hitems, ?_, ?_, loadErrSentinel_ne_chunkName⟩
  · rw [controllerRun_append, controllerRun_cons, hitems]
    simp
  · rw [controllerCalls_append, controllerCalls_cons, hitems]
    simp

/-- Witness for C7: one failing control definition between two loading ones. -/
theorem c7_load_failure_single_result_witness :
    ∃ p : PromptEnv, promptLoadError p.load = some (str2cp "Error: Prompt file missing.") ∧
      controllerRun true [p] =
        [⟨p.defaultId, str2cp "N/A", [], str2cp "Error: Prompt file missing.",
          loadErrSentinel, -1⟩] := by
  refine ⟨⟨str2cp "C1", .fileMissing, true, .ok [], fun _ => .emptyContent⟩, rfl, ?_⟩
  have := (c7_load_failure_single_result [] []
    ⟨str2cp "C1", .fileMissing, true, .ok [], fun _ => .emptyContent⟩
    (str2cp "Error: Prompt file missing.") rfl).2.1
  simpa [controllerRun] using this

theorem promptItems_chunks (p : PromptEnv)
    (cid : Option PyStr) (instrs : List PyStr) (desc : Option PyStr)
    (chunks : List (PyStr × PyStr × Int))
    (hl : p.load = .loaded cid instrs desc) (hi : instrs ≠ [])
    (he : p.embedOk = true) (hq : p.query = .ok chunks) (hch : chunks ≠ []) :
    promptItems p = (chunks.mapIdx (fun i c =>
      ⟨promptCid p, promptDesc p, promptInstrs p,
       llmResultText (p.llm i), c.1, c.2.2⟩), chunks.length) := by
  unfold promptItems
  rw [hl]
  simp only [promptLoadError, if_neg hi]
  rw [he, hq]
  simp only [Bool.not_true, Bool.false_eq_true, if_false]
  cases chunks with
  | nil => exact absurd rfl hch
  | cons c cs => rfl

/-- Claim C8: for a control whose definition loaded and whose retrieval
returned chunks, the executor emits exactly one result per retrieved chunk;
a chunk whose evaluation-model call raises gets the error marker string as
its result text (no exception escapes, since every call outcome is mapped to
a result); the result of every sibling chunk is unchanged by that failure;
and the surrounding controls of the batch are processed unchanged. -/
theorem c8_per_chunk_failure_isolated (p : PromptEnv)
    (cid : Option PyStr) (instrs : List PyStr) (desc : Option PyStr)
    (chunks : List (PyStr × PyStr × Int))
    (hl : p.load = .loaded cid instrs desc) (hi : instrs ≠ [])
    (he : p.embedOk = true) (hq : p.query = .ok chunks) (hch : chunks ≠ []) :
    (promptItems p).1.length = chunks.length ∧
    (∀ i e, i < chunks.length → p.llm i = .raises e →
      ((promptItems p).1.getD i defaultItem).result = llmErrMarker e) ∧
    (∀ (llm2 : Nat → LLMOut) i j, j < chunks.length → j ≠ i →
      (∀ k, k ≠ i → llm2 k = p.llm k) →
      (promptItems { p with llm := llm2 }).1.getD j defaultItem =
        (promptItems p).1.getD j defaultItem) ∧
    (∀ pre post, controllerRun true (pre ++ p :: post) =
      controllerRun true pre ++ (promptItems p).1 ++ controllerRun true post) := by
  have hpi := promptItems_chunks p cid instrs desc chunks hl hi he hq hch
  have hlen : (promptItems p).1.length = chunks.length := by
    rw [hpi]
    simp
  refine ⟨hlen, ?_, ?_, ?_⟩
  · intro i e hilt hie
    rw [hpi]
    have hmi : i < (chunks.mapIdx (fun i c =>
        (⟨promptCid p, promptDesc p, promptInstrs p,
          llmResultText (p.llm i), c.1, c.2.2⟩ : CtrlItem))).length := by
      simpa using hilt
    rw [List.getD_eq_getElem _ _ hmi]
    rw [List.getElem_mapIdx]
    rw [hie]
    rfl
  · intro llm2 i j hjlt hji hagree
    have hpi2 := promptItems_chunks { p with llm := llm2 } cid instrs desc chunks hl hi he hq hch
    rw [hpi, hpi2]
    have hmj : j < (chunks.mapIdx (fun i c =>
        (⟨promptCid p, promptDesc p, promptInstrs p,
          llmResultText (p.llm i), c.1, c.2.2⟩ : CtrlItem))).length := by
      simpa using hjlt
    have hmj2 : j < (chunks.mapIdx (fun i c =>
        (⟨promptCid { p with llm := llm2 }, promptDesc { p with llm := llm2 },
          promptInstrs { p with llm := llm2 },
          llmResultText (llm2 i), c.1, c.2.2⟩ : CtrlItem))).length := by
      simpa using hjlt
    rw [List.getD_eq_getElem _ _ hmj2, List.getD_eq_getElem _ _ hmj]
    rw [List.getElem_mapIdx, List.getElem_mapIdx]
    rw [hagree j hji]
    rfl
  · intro pre post
    rw [controllerRun_append, controllerRun_cons, List.append_assoc]

/-- Witness for C8: one control, two retrieved chunks, second call raises. -/
theorem c8_per_chunk_failure_isolated_witness :
    ∃ p : PromptEnv,
      (promptItems p).1.length = 2 ∧
      ((promptItems p).1.getD 1 defaultItem).result = llmErrMarker (str2cp "boom") ∧
      ((promptItems p).1.getD 0 defaultItem).result = str2cp "OK" := by
  refine ⟨⟨str2cp "C2", .loaded none [str2cp "inst"] none, true,
    .ok [(chunkName 0, str2cp "t0", 1), (chunkName 1, str2cp "t1", 2)],
    fun i => if i = 0 then .ok (str2cp "OK") else .raises (str2cp "boom")⟩, ?_, ?_, by decide⟩
  · exact (c8_per_chunk_failure_isolated _ none [str2cp "inst"] none
      [(chunkName 0, str2cp "t0", 1), (chunkName 1, str2cp "t1", 2)]
      rfl (by decide) rfl rfl (by decide)).1
  · exact (c8_per_chunk_failure_isolated _ none [str2cp "inst"] none
      [(chunkName 0, str2cp "t0", 1), (chunkName 1, str2cp "t1", 2)]
      rfl (by decide) rfl rfl (by decide)).2.1 1 (str2cp "boom") (by decide) rfl

/-!
### Control chain theorems (collection lifecycle)
-/

theorem runControlChain_ok_events (spec : Option PyStr) (absPath : PyStr)
    (search : PyStr → PyStr → Option Bool) (nm : PyStr) (chunks : List PyStr)
    (peekOk clientOk : Bool) (prompts : List PromptEnv) (grades : Nat → GradeResp) :
    (runControlChain ⟨spec, absPath, search, .ok nm chunks, peekOk, clientOk,
      prompts, grades⟩).events = [VEvent.create nm, VEvent.delete nm] := by
  simp only [runControlChain]
  split_ifs <;> rfl

/-- Claim C3: every run that creates (and populates) a vector-store
collection deletes it before returning: on every exit path of the chain in
which a `create` event occurs for a collection name (success,
category-determination failure, no-valid-prompts skip, and partial failure
after population inside the extractor), the trace contains exactly one
`delete` event for that name (and exactly one `create`), so no path returns
with the collection alive. -/
theorem c3_collection_teardown (env : ChainEnv) (nm : PyStr)
    (h : VEvent.create nm ∈ (runControlChain env).events) :
    (runControlChain env).events.count (VEvent.delete nm) = 1 ∧
    (runControlChain env).events.count (VEvent.create nm) = 1 := by
  rcases env with ⟨spec, absPath, search, extract, peekOk, clientOk, prompts, grades⟩
  cases extract with
  | failNoCreate msg => simp [runControlChain, extractEvents] at h
  | noContent => simp [runControlChain, extractEvents] at h
  | failAfterCreate n2 msg =>
    simp only [runControlChain, extractEvents] at h ⊢
    have hn : nm = n2 := by
      simp only [List.mem_cons, List.mem_singleton] at h
      rcases h with h | h | h
      · exact (VEvent.create.injEq nm n2).mp h
      · exact absurd h (by simp)
      · exact absurd h (by simp)
    subst hn
    constructor <;> simp [List.count_cons]
  | ok n2 chunks =>
    rw [runControlChain_ok_events] at h ⊢
    have hn : nm = n2 := by
      simp only [List.mem_cons, List.mem_singleton] at h
      rcases h with h | h | h
      · exact (VEvent.create.injEq nm n2).mp h
      · exact absurd h (by simp)
      · exact absurd h (by simp)
    subst hn
    constructor <;> simp [List.count_cons]

/-- Witness for C3: a run whose category resolution fails after the
collection was created and populated; the trace deletes it exactly once. -/
theorem c3_collection_teardown_witness :
    VEvent.create (str2cp "d") ∈
      (runControlChain ⟨none, str2cp "/a/b.txt", fun _ _ => some false,
        .ok (str2cp "d") [str2cp "x"], true, true, [], fun _ => .callFails⟩).events ∧
    (runControlChain ⟨none, str2cp "/a/b.txt", fun _ _ => some false,
      .ok (str2cp "d") [str2cp "x"], true, true, [], fun _ => .callFails⟩).events.count
        (VEvent.delete (str2cp "d")) = 1 :=
  ⟨by decide,
   (c3_collection_teardown ⟨none, str2cp "/a/b.txt", fun _ _ => some false,
      .ok (str2cp "d") [str2cp "x"], true, true, [], fun _ => .callFails⟩
      (str2cp "d") (by decide)).1⟩

/-!
### Reporter theorems (consolidation and summary)
-/

theorem vCode_range (it : GradedItem) : 1 ≤ vCode it ∧ vCode it ≤ 10 := by
  rcases hsc : it.score with _ | s
  · simp [vCode, hsc]
  · simp only [vCode, hsc]
    by_cases h : 1 ≤ s ∧ s ≤ 10
    · rw [if_pos h]; exact h
    · rw [if_neg h]; exact ⟨by decide, by decide⟩

theorem maxBy_init_le (v : GradedItem → Int) :
    ∀ (xs : List GradedItem) (a b : Int), a ≤ b →
      a ≤ xs.foldl (fun m y => max m (v y)) b := by
  intro xs
  induction xs with
  | nil => intro a b h; simpa using h
  | cons x xs ih =>
    intro a b h
    simp only [List.foldl_cons]
    exact ih a (max b (v x)) (le_trans h (le_max_left _ _))

theorem foldl_max_all_le (v : GradedItem → Int) :
    ∀ (xs : List GradedItem) (a : Int), (∀ y ∈ xs, v y ≤ a) →
      xs.foldl (fun m y => max m (v y)) a = a := by
  intro xs
  induction xs with
  | nil => intro a _; rfl
  | cons x xs ih =>
    intro a h
    simp only [List.foldl_cons]
    rw [max_eq_left (h x (by simp))]
    exact ih a fun y hy => h y (by simp [hy])

theorem pickLoop_isSome : ∀ (xs : List GradedItem) (w : GradedItem) (m : Int),
    ∃ u, pickLoop xs (some w) m = some u := by
  intro xs
  induction xs with
  | nil => intro w m; exact ⟨w, rfl⟩
  | cons x xs ih =>
    intro w m
    simp only [pickLoop]
    split_ifs <;> exact ih _ _

theorem pickLoop_find (xs : List GradedItem) : ∀ w : GradedItem,
    pickLoop xs (some w) (vCode w) =
      (w :: xs).find? (fun y => decide (maxBy vCode w xs ≤ vCode y)) := by
  induction xs with
  | nil =>
    intro w
    simp [pickLoop, maxBy, List.find?]
  | cons x xs ih =>
    intro w
    have hstep : pickLoop (x :: xs) (some w) (vCode w) =
        if vCode x > vCode w then pickLoop xs (some x) (vCode x)
        else pickLoop xs (some w) (vCode w) := by
      simp only [pickLoop, Option.isNone_some, Bool.false_eq_true, or_false]
      by_cases hgt : vCode x > vCode w
      · rw [if_pos (by omega : vCode x ≥ vCode w), if_pos hgt]
      · by_cases hge : vCode x ≥ vCode w
        · rw [if_pos hge, if_neg hgt]
        · rw [if_neg hge, if_neg hgt]
          simp
    rw [hstep]
    have hM : maxBy vCode w (x :: xs) =
        xs.foldl (fun m y => max m (vCode y)) (max (vCode w) (vCode x)) := by
      simp [maxBy]
    by_cases hgt : vCode x > vCode w
    · rw [if_pos hgt]
      have hMx : maxBy vCode w (x :: xs) = maxBy vCode x xs := by
        rw [hM, max_eq_right (by omega : vCode w ≤ vCode x)]
        rfl
      have hwfalse : ¬ (maxBy vCode w (x :: xs) ≤ vCode w) := by
        rw [hMx]
        have := maxBy_init_le vCode xs (vCode x) (vCode x) le_rfl
        unfold maxBy
        omega
      rw [List.find?_cons_of_neg _ (by simpa using hwfalse)]
      rw [ih x]
      congr 1
      funext y
      rw [hMx]
    · rw [if_neg hgt]
      have hMw : maxBy vCode w (x :: xs) = maxBy vCode w xs := by
        rw [hM, max_eq_left (by omega : vCode x ≤ vCode w)]
        rfl
      rw [ih w]
      by_cases hpw : maxBy vCode w xs ≤ vCode w
      · rw [List.find?_cons_of_pos _ (by simpa using hpw),
            List.find?_cons_of_pos _ (by rw [hMw]; simpa using hpw)]
      · rw [List.find?_cons_of_neg _ (by simpa using hpw),
            List.find?_cons_of_neg _ (by rw [hMw]; simpa using hpw)]
        have hpx : ¬ (maxBy vCode w (x :: xs) ≤ vCode x) := by
          rw [hMw]
          omega
        rw [List.find?_cons_of_neg _ (by simpa using hpx)]
        congr 1
        funext y
        rw [hMw]

theorem pickWorst_eq_select (g : List GradedItem) :
    pickWorst g = selectWorstBy vCode g := by
  cases g with
  | nil => rfl
  | cons x xs =>
    have h1 : pickWorst (x :: xs) = pickLoop xs (some x) (vCode x) := by
      simp only [pickWorst, pickLoop, Option.isNone_none, or_true, if_true]
      rw [if_pos (by have hx := (vCode_range x).1; omega : vCode x ≥ -1)]
    rw [h1, pickLoop_find xs x]
    rfl

theorem pickWorst_isSome (g : List GradedItem) (h : g ≠ []) :
    ∃ u, pickWorst g = some u := by
  cases g with
  | nil => exact absurd rfl h
  | cons x xs =>
    have h1 : pickWorst (x :: xs) = pickLoop xs (some x) (vCode x) := by
      simp only [pickWorst, pickLoop, Option.isNone_none, or_true, if_true]
      rw [if_pos (by have hx := (vCode_range x).1; omega : vCode x ≥ -1)]
    rw [h1]
    exact pickLoop_isSome xs x (vCode x)

theorem addToGroups_snd_ne (gs : List (PyStr × List GradedItem)) (it : GradedItem)
    (h : ∀ e ∈ gs, e.2 ≠ []) : ∀ e ∈ addToGroups gs it, e.2 ≠ [] := by
  induction gs with
  | nil =>
    intro e he
    simp only [addToGroups, List.mem_singleton] at he
    subst he
    simp
  | cons g gs ih =>
    intro e he
    rcases g with ⟨k, items⟩
    simp only [addToGroups] at he
    by_cases hk : k = it.base.cid
    · rw [if_pos hk] at he
      rcases List.mem_cons.mp he with rfl | he2
      · simp
      · exact h _ (by simp [he2])
    · rw [if_neg hk] at he
      rcases List.mem_cons.mp he with rfl | he2
      · exact h _ (by simp)
      · exact ih (fun e2 he3 => h e2 (by simp [he3])) e he2

theorem groupById_aux_snd_ne (l : List GradedItem) :
    ∀ acc, (∀ e ∈ acc, e.2 ≠ []) → ∀ e ∈ l.foldl addToGroups acc, e.2 ≠ [] := by
  induction l with
  | nil => intro acc h; simpa using h
  | cons it l ih =>
    intro acc h
    simp only [List.foldl_cons]
    exact ih (addToGroups acc it) (addToGroups_snd_ne acc it h)

theorem groupById_snd_ne (l : List GradedItem) : ∀ e ∈ groupById l, e.2 ≠ [] :=
  groupById_aux_snd_ne l [] (by simp)

theorem addToGroups_keys (gs : List (PyStr × List GradedItem)) (it : GradedItem) :
    (addToGroups gs it).map Prod.fst =
      if it.base.cid ∈ gs.map Prod.fst then gs.map Prod.fst
      else gs.map Prod.fst ++ [it.base.cid] := by
  induction gs with
  | nil => simp [addToGroups]
  | cons g gs ih =>
    rcases g with ⟨k, items⟩
    simp only [addToGroups, List.map_cons]
    by_cases hk : k = it.base.cid
    · rw [if_pos hk]
      rw [if_pos (by simp [hk])]
      simp
    · rw [if_neg hk]
      simp only [List.map_cons]
      rw [ih]
      by_cases hmem : it.base.cid ∈ gs.map Prod.fst
      · rw [if_pos hmem, if_pos (by simp [hmem])]
      · rw [if_neg hmem, if_neg (by simp [hmem, Ne.symm hk])]
        simp

theorem groupById_aux_keys_nodup (l : List GradedItem) :
    ∀ acc, ((acc : List (PyStr × List GradedItem)).map Prod.fst).Nodup →
      ((l.foldl addToGroups acc).map Prod.fst).Nodup := by
  induction l with
  | nil => intro acc h; simpa using h
  | cons it l ih =>
    intro acc h
    simp only [List.foldl_cons]
    apply ih
    rw [addToGroups_keys]
    by_cases hmem : it.base.cid ∈ acc.map Prod.fst
    · rw [if_pos hmem]; exact h
    · rw [if_neg hmem]
      rw [List.nodup_append]
      refine ⟨h, List.nodup_singleton _, ?_⟩
      intro a ha hb
      simp only [List.mem_singleton] at hb
      subst hb
      exact hmem ha

theorem groupById_keys_nodup (l : List GradedItem) :
    ((groupById l).map Prod.fst).Nodup :=
  groupById_aux_keys_nodup l [] (by simp)

theorem groupById_aux_keys_mem (l : List GradedItem) :
    ∀ acc x, (x ∈ (l.foldl addToGroups acc).map Prod.fst ↔
      x ∈ acc.map Prod.fst ∨ x ∈ l.map fun it => it.base.cid) := by
  induction l with
  | nil => intro acc x; simp
  | cons it l ih =>
    intro acc x
    simp only [List.foldl_cons, List.map_cons, List.mem_cons]
    rw [ih]
    rw [addToGroups_keys]
    by_cases hmem : it.base.cid ∈ acc.map Prod.fst
    · rw [if_pos hmem]
      constructor
      · tauto
      · rintro (h | rfl | h)
        · tauto
        · tauto
        · tauto
    · rw [if_neg hmem]
      simp only [List.mem_append, List.mem_singleton]
      tauto

theorem groupById_keys_mem (l : List GradedItem) (x : PyStr) :
    x ∈ (groupById l).map Prod.fst ↔ x ∈ l.map fun it => it.base.cid := by
  have := groupById_aux_keys_mem l [] x
  simpa [groupById] using this

theorem vCode_of_not_valid (it : GradedItem) (h : validScore it = false) : vCode it = 10 := by
  rcases hsc : it.score with _ | s
  · simp [vCode, hsc]
  · simp only [validScore, hsc] at h
    simp only [vCode, hsc]
    rw [if_neg (by simpa using h)]

theorem pickWorst_all_invalid (g : List GradedItem)
    (h : ∀ x ∈ g, validScore x = false) : pickWorst g = g.head? := by
  cases g with
  | nil => rfl
  | cons x xs =>
    rw [pickWorst_eq_select]
    have hvx : vCode x = 10 := vCode_of_not_valid x (h x (by simp))
    have hmax : maxBy vCode x xs = vCode x := by
      unfold maxBy
      exact foldl_max_all_le vCode xs (vCode x) fun y hy => by
        rw [vCode_of_not_valid y (h y (by simp [hy])), hvx]
    simp only [selectWorstBy]
    rw [List.find?_cons_of_pos _ (by simp [hmax])]
    rfl

/-- Claim C1, counterexample: two graded entries for the same control with
scores 10 and 11. The source's comparator maps 11 (a number outside
`[1,10]`) to comparison value 10, ties with the first entry, and keeps the
first (score 10); the claim's comparator (`v = score` whenever the score is
a valid number greater than 0) gives the second entry value 11 and would
select it. The two selections differ, so the claim as stated is false. -/
theorem c1_comparison_value_counterexample :
    groupById
      [⟨⟨str2cp "CTRL", [], [], str2cp "ra", str2cp "chunk_0", 0⟩, some 10⟩,
       ⟨⟨str2cp "CTRL", [], [], str2cp "rb", str2cp "chunk_1", 0⟩, some 11⟩] =
      [(str2cp "CTRL",
        [⟨⟨str2cp "CTRL", [], [], str2cp "ra", str2cp "chunk_0", 0⟩, some 10⟩,
         ⟨⟨str2cp "CTRL", [], [], str2cp "rb", str2cp "chunk_1", 0⟩, some 11⟩])] ∧
    pickWorst
      [⟨⟨str2cp "CTRL", [], [], str2cp "ra", str2cp "chunk_0", 0⟩, some 10⟩,
       ⟨⟨str2cp "CTRL", [], [], str2cp "rb", str2cp "chunk_1", 0⟩, some 11⟩] =
      some ⟨⟨str2cp "CTRL", [], [], str2cp "ra", str2cp "chunk_0", 0⟩, some 10⟩ ∧
    selectWorstBy vClaim
      [⟨⟨str2cp "CTRL", [], [], str2cp "ra", str2cp "chunk_0", 0⟩, some 10⟩,
       ⟨⟨str2cp "CTRL", [], [], str2cp "rb", str2cp "chunk_1", 0⟩, some 11⟩] =
      some ⟨⟨str2cp "CTRL", [], [], str2cp "rb", str2cp "chunk_1", 0⟩, some 11⟩ ∧
    (⟨⟨str2cp "CTRL", [], [], str2cp "ra", str2cp "chunk_0", 0⟩, some 10⟩ : GradedItem) ≠
      ⟨⟨str2cp "CTRL", [], [], str2cp "rb", str2cp "chunk_1", 0⟩, some 11⟩ := by
  decide

/-- Claim C1 (amended): within every group produced by grouping graded
results by control id, the consolidator selects the entry with maximum
comparison value `v`, where `v = score` if the score is a valid number in
`[1,10]` and `v = 10` otherwise; ties keep the earliest-seen entry
(first-wins, which is what `selectWorstBy` expresses: the first entry
attaining the maximum); and a group with no validly-scored entries keeps
its first entry, whose comparison value is 10. -/
theorem c1_consolidation_worst_pick (l : List GradedItem) (cid : PyStr)
    (g : List GradedItem) (h : (cid, g) ∈ groupById l) :
    g ≠ [] ∧
    pickWorst g = selectWorstBy vCode g ∧
    ((∀ x ∈ g, validScore x = false) →
      pickWorst g = g.head? ∧ ∀ w, pickWorst g = some w → vCode w = 10) := by
  have hne : g ≠ [] := groupById_snd_ne l (cid, g) h
  refine ⟨hne, pickWorst_eq_select g, fun hall => ⟨pickWorst_all_invalid g hall, ?_⟩⟩
  intro w hw
  rw [pickWorst_all_invalid g hall] at hw
  cases g with
  | nil => simp at hw
  | cons x xs =>
    have hxw : x = w := by simpa using hw
    subst hxw
    exact vCode_of_not_valid x (hall x (by simp))

/-- Witness for C1 at a two-entry group with scores 3 and 7. -/
theorem c1_consolidation_worst_pick_witness :
    (str2cp "K1",
      [⟨⟨str2cp "K1", [], [], str2cp "ra", str2cp "chunk_0", 0⟩, some 3⟩,
       ⟨⟨str2cp "K1", [], [], str2cp "rb", str2cp "chunk_1", 0⟩, some 7⟩]) ∈
      groupById
        [⟨⟨str2cp "K1", [], [], str2cp "ra", str2cp "chunk_0", 0⟩, some 3⟩,
         ⟨⟨str2cp "K1", [], [], str2cp "rb", str2cp "chunk_1", 0⟩, some 7⟩] ∧
    pickWorst
      [⟨⟨str2cp "K1", [], [], str2cp "ra", str2cp "chunk_0", 0⟩, some 3⟩,
       ⟨⟨str2cp "K1", [], [], str2cp "rb", str2cp "chunk_1", 0⟩, some 7⟩] =
      selectWorstBy vCode
        [⟨⟨str2cp "K1", [], [], str2cp "ra", str2cp "chunk_0", 0⟩, some 3⟩,
         ⟨⟨str2cp "K1", [], [], str2cp "rb", str2cp "chunk_1", 0⟩, some 7⟩] :=
  ⟨by decide,
   (c1_consolidation_worst_pick
      [⟨⟨str2cp "K1", [], [], str2cp "ra", str2cp "chunk_0", 0⟩, some 3⟩,
       ⟨⟨str2cp "K1", [], [], str2cp "rb", str2cp "chunk_1", 0⟩, some 7⟩]
      (str2cp "K1")
      [⟨⟨str2cp "K1", [], [], str2cp "ra", str2cp "chunk_0", 0⟩, some 3⟩,
       ⟨⟨str2cp "K1", [], [], str2cp "rb", str2cp "chunk_1", 0⟩, some 7⟩]
      (by decide)).2.1⟩

theorem summary_foldl (p : (PyStr × GradedItem) → Bool) :
    ∀ (l : List (PyStr × GradedItem)) (a b : Nat),
      l.foldl (fun (pf : Nat × Nat) e =>
        if p e then (pf.1 + 1, pf.2) else (pf.1, pf.2 + 1)) (a, b) =
      (a + (l.filter p).length, b + (l.filter fun e => ¬ p e).length) := by
  intro l
  induction l with
  | nil => intro a b; simp
  | cons e l ih =>
    intro a b
    simp only [List.foldl_cons]
    by_cases hp : p e
    · rw [if_pos hp, ih]
      simp [List.filter_cons, hp]
      omega
    · rw [if_neg hp, ih]
      simp [List.filter_cons, hp]
      omega

theorem calcSummary_eq (cons : List (PyStr × GradedItem)) :
    calcSummary cons = ((cons.filter fun e => passCond e.2).length,
      (cons.filter fun e => ¬ passCond e.2).length, cons.length) := by
  unfold calcSummary
  rw [summary_foldl]
  simp

theorem consolidate_foldl_length :
    ∀ (gs : List (PyStr × List GradedItem)) (acc : List (PyStr × GradedItem)),
      (∀ e ∈ gs, e.2 ≠ []) →
      (gs.foldl (fun acc g =>
        match pickWorst g.2 with
        | some w => acc ++ [(g.1, w)]
        | none => acc) acc).length = acc.length + gs.length := by
  intro gs
  induction gs with
  | nil => intro acc _; simp
  | cons g gs ih =>
    intro acc h
    simp only [List.foldl_cons]
    obtain ⟨u, hu⟩ := pickWorst_isSome g.2 (h g (by simp))
    rw [hu]
    rw [ih (acc ++ [(g.1, u)]) fun e he => h e (by simp [he])]
    simp
    omega

theorem consolidated_length (l : List GradedItem) :
    (consolidated l).length = (reporterGroups l).length := by
  unfold consolidated
  rw [consolidate_foldl_length (reporterGroups l) []
    (groupById_snd_ne (l.filter fun it => ¬ isSpecialMarker it.base.cid))]
  simp

theorem reporterGroups_length_uniq (l : List GradedItem) :
    (reporterGroups l).length =
      ((l.filter fun it => ¬ isSpecialMarker it.base.cid).map
        fun it => it.base.cid).toFinset.card := by
  set l2 := l.filter fun it => ¬ isSpecialMarker it.base.cid with hl2
  have hkeys : (reporterGroups l).length = ((groupById l2).map Prod.fst).length := by
    simp [reporterGroups, hl2]
  rw [hkeys]
  have hnodup : ((groupById l2).map Prod.fst).Nodup := groupById_keys_nodup l2
  rw [← List.toFinset_card_of_nodup hnodup]
  congr 1
  apply Finset.ext
  intro x
  simp only [List.mem_toFinset]
  exact groupById_keys_mem l2 x

theorem passCond_iff (it : GradedItem) :
    passCond it = true ↔ ∃ s, it.score = some s ∧ 1 ≤ s ∧ s < 5 := by
  rcases hsc : it.score with _ | s
  · simp [passCond, hsc]
  · simp [passCond, hsc]

/-- Claim C6: a consolidated entry is classified PASS exactly when its score
is a number with `1 <= score < 5` (everything else, including all fallback
and error values, is FAIL); the summary's passed count is the number of PASS
entries, its total is the number of unique control ids in the graded input
(markers excluded by hypothesis); and 3 unique controls with worst scores
`[2, 6, 4]` yield passed 2 of total 3 (with one failure). -/
theorem c6_pass_fail_summary (l : List GradedItem)
    (h : ∀ it ∈ l, isSpecialMarker it.base.cid = false) :
    (∀ cid it, (cid, it) ∈ consolidated l →
      (statusStr it = str2cp "PASS" ↔ ∃ s, it.score = some s ∧ 1 ≤ s ∧ s < 5)) ∧
    (calcSummary (consolidated l)).1 =
      ((consolidated l).filter fun e => passCond e.2).length ∧
    (calcSummary (consolidated l)).2.2 =
      ((l.map fun it => it.base.cid).toFinset).card ∧
    calcSummary (consolidated
      [⟨⟨str2cp "A", [], [], [], [], 0⟩, some 2⟩,
       ⟨⟨str2cp "B", [], [], [], [], 0⟩, some 6⟩,
       ⟨⟨str2cp "C", [], [], [], [], 0⟩, some 4⟩]) = (2, 1, 3) := by
  refine ⟨?_, ?_, ?_, by decide⟩
  · intro cid it _
    by_cases hp : passCond it
    · rw [statusStr, if_pos hp]
      exact ⟨fun _ => (passCond_iff it).mp hp, fun _ => rfl⟩
    · rw [statusStr, if_neg hp]
      constructor
      · intro hEq
        exact absurd hEq (by decide)
      · intro hex
        exact absurd ((passCond_iff it).mpr hex) hp
  · rw [calcSummary_eq]
  · rw [calcSummary_eq]
    show (consolidated l).length = _
    rw [consolidated_length, reporterGroups_length_uniq]
    have hfe : (l.filter fun it => ¬ isSpecialMarker it.base.cid) = l := by
      apply List.filter_eq_self.mpr
      intro a ha
      rw [h a ha]
      decide
    rw [hfe]

/-- Witness for C6 at the three-control example with scores 2, 6, 4. -/
theorem c6_pass_fail_summary_witness :
    (∀ it ∈ [(⟨⟨str2cp "A", [], [], [], [], 0⟩, some 2⟩ : GradedItem),
              ⟨⟨str2cp "B", [], [], [], [], 0⟩, some 6⟩,
              ⟨⟨str2cp "C", [], [], [], [], 0⟩, some 4⟩],
        isSpecialMarker it.base.cid = false) ∧
    (calcSummary (consolidated
      [⟨⟨str2cp "A", [], [], [], [], 0⟩, some 2⟩,
       ⟨⟨str2cp "B", [], [], [], [], 0⟩, some 6⟩,
       ⟨⟨str2cp "C", [], [], [], [], 0⟩, some 4⟩])).2.2 =
      (([⟨⟨str2cp "A", [], [], [], [], 0⟩, some 2⟩,
         ⟨⟨str2cp "B", [], [], [], [], 0⟩, some 6⟩,
         ⟨⟨str2cp "C", [], [], [], [], 0⟩, some 4⟩].map
          fun it : GradedItem => it.base.cid).toFinset).card :=
  ⟨by decide,
   (c6_pass_fail_summary
      [⟨⟨str2cp "A", [], [], [], [], 0⟩, some 2⟩,
       ⟨⟨str2cp "B", [], [], [], [], 0⟩, some 6⟩,
       ⟨⟨str2cp "C", [], [], [], [], 0⟩, some 4⟩]
      (by decide)).2.2.1⟩

/-!
### Category-resolution theorems
-/

theorem upChar_eq_iff (n u : Nat) (hu : ¬ (97 ≤ u ∧ u ≤ 122)) :
    upChar n = u ↔ lowChar n = lowChar u := by
  unfold upChar lowChar
  split_ifs <;> omega

theorem pyUpper_eq_iff (s C : PyStr) (hC : ∀ u ∈ C, ¬ (97 ≤ u ∧ u ≤ 122)) :
    pyUpper s = C ↔ pyLower s = pyLower C := by
  unfold pyUpper pyLower
  induction s generalizing C with
  | nil => cases C <;> simp
  | cons a s ih =>
    cases C with
    | nil => simp
    | cons u C2 =>
      simp only [List.map_cons, List.cons.injEq]
      exact and_congr (upChar_eq_iff a u (hC u (by simp)))
        (ih C2 fun u2 hu2 => hC u2 (by simp [hu2]))

theorem KNOWN_ne_nil : ∀ c ∈ KNOWN, c ≠ [] := by decide

theorem KNOWN_not_lower : ∀ c ∈ KNOWN, ∀ u ∈ c, ¬ (97 ≤ u ∧ u ≤ 122) := by decide

theorem pyUpper_iff_ciEq (s c : PyStr) (hc : c ∈ KNOWN) :
    pyUpper s = c ↔ ciEq s c :=
  pyUpper_eq_iff s c (KNOWN_not_lower c hc)

theorem find?_of_unique (p : PyStr → Bool) :
    ∀ (L : List PyStr) (c : PyStr), c ∈ L → p c = true →
      (∀ d ∈ L, p d = true → d = c) → L.find? p = some c := by
  intro L
  induction L with
  | nil => intro c hc; simp at hc
  | cons a L ih =>
    intro c hc hpc huniq
    by_cases hpa : p a
    · rw [List.find?_cons_of_pos _ hpa]
      rw [huniq a (by simp) hpa]
    · rw [List.find?_cons_of_neg _ hpa]
      rcases List.mem_cons.mp hc with rfl | hc2
      · exact absurd hpc hpa
      · exact ih c hc2 hpc fun d hd hpd => huniq d (by simp [hd]) hpd

theorem specified_find_some (s c : PyStr)
    (h : KNOWN.find? (fun k => decide (ciEq s k)) = some c) :
    pyUpper s = c ∧ pyUpper s ∈ KNOWN ∧ c ≠ [] := by
  have hmem : c ∈ KNOWN := List.mem_of_find?_eq_some h
  have hp := List.find?_some h
  have hup : pyUpper s = c :=
    (pyUpper_iff_ciEq s c hmem).mpr (of_decide_eq_true (by simpa using hp))
  exact ⟨hup, hup ▸ hmem, KNOWN_ne_nil c hmem⟩

theorem specified_find_none (s : PyStr)
    (h : KNOWN.find? (fun k => decide (ciEq s k)) = none) :
    pyUpper s ∉ KNOWN := by
  intro hmem
  have hnp := List.find?_eq_none.mp h (pyUpper s) hmem
  exact hnp (decide_eq_true ((pyUpper_iff_ciEq s _ hmem).mp rfl))

theorem specified_find_of_mem (s : PyStr) (h : pyUpper s ∈ KNOWN) :
    KNOWN.find? (fun k => decide (ciEq s k)) = some (pyUpper s) :=
  find?_of_unique _ KNOWN (pyUpper s) h
    (decide_eq_true ((pyUpper_iff_ciEq s _ h).mp rfl))
    (fun d hd hpd => ((pyUpper_iff_ciEq s d hd).mpr (of_decide_eq_true hpd)).symm)

theorem firstMatch_eq_getD (p : PyStr → Bool) (L : List PyStr) :
    firstMatch p L = (L.find? p).getD [] := by
  induction L with
  | nil => rfl
  | cons c L ih =>
    by_cases h : p c
    · simp [firstMatch, h, List.find?_cons_of_pos _ h]
    · simp [firstMatch, h, List.find?_cons_of_neg _ h, ih]

theorem patLoop_eq_any (search : PyStr → PyStr → Option Bool) (tl : PyStr) :
    ∀ ps : List PyStr,
      patLoop search tl ps = ps.any fun p => decide (search p tl = some true) := by
  intro ps
  induction ps with
  | nil => rfl
  | cons p ps ih =>
    simp only [patLoop, List.any_cons, ← ih]
    rcases hsp : search p tl with _ | b
    · simp [hsp]
    · cases b <;> simp [hsp]

theorem contentLoop_eq_find? (search : PyStr → PyStr → Option Bool) (tl : PyStr) :
    ∀ kw : List (PyStr × List PyStr), (∀ e ∈ kw, e.1 ∈ KNOWN) →
      contentLoop search tl kw =
        ((kw.find? fun cp => cp.2.any fun p =>
          decide (search p tl = some true)).map Prod.fst).getD [] := by
  intro kw
  induction kw with
  | nil => intro _; rfl
  | cons e kw ih =>
    intro h
    rcases e with ⟨cat, pats⟩
    simp only [contentLoop, if_pos (h (cat, pats) (by simp))]
    rw [patLoop_eq_any]
    by_cases hany : (pats.any fun p => decide (search p tl = some true)) = true
    · rw [if_pos hany, List.find?_cons_of_pos _ (by simpa using hany)]
      rfl
    · rw [if_neg hany, List.find?_cons_of_neg _ (by simpa using hany)]
      exact ih fun e2 he2 => h e2 (by simp [he2])

theorem CATEGORY_KEYWORDS_known : ∀ e ∈ CATEGORY_KEYWORDS, e.1 ∈ KNOWN := by decide

theorem peekChunk_ne_some_nil (peekOk : Bool) (chunks : List PyStr) (c : PyStr)
    (h : peekChunk peekOk chunks = some c) : c ≠ [] := by
  cases peekOk with
  | false => simp [peekChunk] at h
  | true =>
    rcases chunks with _ | ⟨c0, cs⟩
    · simp [peekChunk] at h
    · simp only [peekChunk, List.head?, eq_self_iff_true, if_true] at h
      by_cases h0 : c0 = []
      · rw [if_pos h0] at h
        simp at h
      · rw [if_neg h0] at h
        have hc0 : c0 = c := by simpa using h
        exact hc0 ▸ h0

theorem determineCategoryFromContent_eq (search : PyStr → PyStr → Option Bool)
    (c : PyStr) (hc : c ≠ []) :
    determineCategoryFromContent search c =
      ((CATEGORY_KEYWORDS.find? fun cp => cp.2.any fun p =>
        decide (search p (pyLower c) = some true)).map Prod.fst).getD [] := by
  unfold determineCategoryFromContent
  rw [if_neg hc]
  exact contentLoop_eq_find? search (pyLower c) CATEGORY_KEYWORDS CATEGORY_KEYWORDS_known

theorem find?_parent_pred_eq (absPath : PyStr) :
    (KNOWN.find? fun c => decide (ciEq (parentDirName absPath) c)) =
      KNOWN.find? fun c => decide (pyLower (parentDirName absPath) = pyLower c) := by
  congr 1

theorem determineCategoryFromPath_some (absPath c1 : PyStr)
    (h : KNOWN.find? (fun c => decide (ciEq (parentDirName absPath) c)) = some c1) :
    determineCategoryFromPath absPath = c1 := by
  have hc1 : c1 ≠ [] := KNOWN_ne_nil c1 (List.mem_of_find?_eq_some h)
  rw [find?_parent_pred_eq] at h
  simp only [determineCategoryFromPath]
  rw [firstMatch_eq_getD, h]
  simp only [Option.getD_some]
  rw [if_pos hc1]

theorem determineCategoryFromPath_none (absPath : PyStr)
    (h : KNOWN.find? (fun c => decide (ciEq (parentDirName absPath) c)) = none) :
    determineCategoryFromPath absPath =
      (KNOWN.find? fun c => pathHasDelimited absPath c).getD [] := by
  rw [find?_parent_pred_eq] at h
  simp only [determineCategoryFromPath]
  rw [firstMatch_eq_getD, h]
  simp only [Option.getD_none, ne_eq, not_true_eq_false, if_false]
  exact firstMatch_eq_getD _ KNOWN

theorem resolveCategory_none (absPath : PyStr) (search : PyStr → PyStr → Option Bool)
    (chunkOpt : Option PyStr) :
    resolveCategory none absPath search chunkOpt =
      if determineCategoryFromPath absPath = []
      then match chunkOpt with
        | some c => determineCategoryFromContent search c
        | none => []
      else determineCategoryFromPath absPath := by
  simp [resolveCategory]

theorem resolve_none_eq_cascade (absPath : PyStr) (search : PyStr → PyStr → Option Bool)
    (chunkOpt : Option PyStr) (hch : ∀ c, chunkOpt = some c → c ≠ []) :
    resolveCategory none absPath search chunkOpt =
      (categoryCascadeSpec none absPath search chunkOpt).getD [] := by
  rw [resolveCategory_none]
  unfold categoryCascadeSpec
  rw [Option.none_bind]
  rcases hf1 : KNOWN.find? (fun c => decide (ciEq (parentDirName absPath) c)) with _ | c1
  · rw [determineCategoryFromPath_none absPath hf1]
    rcases hf2 : KNOWN.find? (fun c => pathHasDelimited absPath c) with _ | c2
    · simp only [Option.getD_none, if_true]
      rcases chunkOpt with _ | c
      · rfl
      · show determineCategoryFromContent search c = _
        rw [determineCategoryFromContent_eq search c (hch c rfl)]
        rfl
    · have hc2 : c2 ≠ [] := KNOWN_ne_nil c2 (List.mem_of_find?_eq_some hf2)
      simp only [Option.getD_some]
      rw [if_neg hc2]
  · rw [determineCategoryFromPath_some absPath c1 hf1]
    have hc1 : c1 ≠ [] := KNOWN_ne_nil c1 (List.mem_of_find?_eq_some hf1)
    rw [if_neg hc1]
    rfl

theorem resolveCategory_some (s : PyStr) (absPath : PyStr)
    (search : PyStr → PyStr → Option Bool) (chunkOpt : Option PyStr) :
    resolveCategory (some s) absPath search chunkOpt =
      if pyUpper s ∈ KNOWN then pyUpper s
      else resolveCategory none absPath search chunkOpt := by
  by_cases h : pyUpper s ∈ KNOWN
  · rw [if_pos h]
    have hne : pyUpper s ≠ [] := KNOWN_ne_nil _ h
    simp [resolveCategory, if_pos h, hne]
  · rw [if_neg h]
    simp [resolveCategory, h]

theorem resolveCategory_eq_cascade (specified : Option PyStr) (absPath : PyStr)
    (search : PyStr → PyStr → Option Bool) (chunkOpt : Option PyStr)
    (hch : ∀ c, chunkOpt = some c → c ≠ []) :
    resolveCategory specified absPath search chunkOpt =
      (categoryCascadeSpec specified absPath search chunkOpt).getD [] := by
  rcases specified with _ | s
  · exact resolve_none_eq_cascade absPath search chunkOpt hch
  · rw [resolveCategory_some]
    unfold categoryCascadeSpec
    rw [Option.some_bind]
    by_cases hk : pyUpper s ∈ KNOWN
    · rw [if_pos hk, specified_find_of_mem s hk]
      rfl
    · rw [if_neg hk]
      rcases hf : KNOWN.find? (fun k => decide (ciEq s k)) with _ | c
      · rw [resolve_none_eq_cascade absPath search chunkOpt hch]
        unfold categoryCascadeSpec
        rw [Option.none_bind]
      · exact absurd (specified_find_some s c hf).2.1 hk

/-- Claim C9: category resolution follows the priority cascade of the
specification — a caller-supplied category matching the known set
case-insensitively wins and bypasses detection; otherwise the immediate
parent directory name is matched case-insensitively; otherwise the full
normalized path is scanned for a known category delimited by path
separators; otherwise keyword/regex matching runs against the first
retrieved chunk in the fixed category priority order — and when every step
fails the result is empty and the chain produces a terminal
category-determination failure report, never a silently defaulted
category. -/
theorem c9_category_resolution_priority :
    (∀ (specified : Option PyStr) (absPath : PyStr)
       (search : PyStr → PyStr → Option Bool) (peekOk : Bool) (chunks : List PyStr),
      resolveCategory specified absPath search (peekChunk peekOk chunks) =
        (categoryCascadeSpec specified absPath search (peekChunk peekOk chunks)).getD []) ∧
    (∀ (env : ChainEnv) (nm : PyStr) (chunks : List PyStr),
      env.extract = .ok nm chunks →
      resolveCategory env.specified env.absPath env.search (peekChunk env.peekOk chunks) = [] →
      (runControlChain env).results = none ∧
      (runControlChain env).isFailure = true ∧
      (runControlChain env).reportItems = [categoryFailItem env.absPath]) := by
  constructor
  · intro specified absPath search peekOk chunks
    exact resolveCategory_eq_cascade specified absPath search _
      (peekChunk_ne_some_nil peekOk chunks)
  · intro env nm chunks hex hres
    rcases env with ⟨spec, ap, se, ex, pk, ck, pr, gr⟩
    dsimp only at hex hres
    subst hex
    dsimp only [runControlChain]
    rw [if_pos hres]
    exact ⟨rfl, rfl, rfl⟩

/-- Witness for C9: a document whose path and content match no category and
with no caller-supplied category; the chain ends in a failure report. -/
theorem c9_category_resolution_priority_witness :
    (runControlChain ⟨none, str2cp "/tmp/x.bin", fun _ _ => some false,
      .ok (str2cp "cc") [str2cp "hello"], true, true, [], fun _ => .callFails⟩).results =
        none ∧
    (runControlChain ⟨none, str2cp "/tmp/x.bin", fun _ _ => some false,
      .ok (str2cp "cc") [str2cp "hello"], true, true, [], fun _ => .callFails⟩).isFailure =
        true := by
  have h := c9_category_resolution_priority.2
    ⟨none, str2cp "/tmp/x.bin", fun _ _ => some false,
      .ok (str2cp "cc") [str2cp "hello"], true, true, [], fun _ => .callFails⟩
    (str2cp "cc") [str2cp "hello"] rfl (by decide)
  exact ⟨h.1, h.2.1⟩

end ControlAuto
